import Mathlib

/-!
# GolangDither: Floyd–Steinberg dithering of GIF frames (`dither.go`)

A shallow embedding of `dither.go` and a verification of its specification.

Modelling conventions.

* A Go run-time panic (slice index out of range, which is also what indexing a
  `nil` row gives) is the result `none`; a normal return is `some`.
* Go `int` values are `ℤ`; `uint8` values are `ℕ`, reduced `% 256` where a
  conversion to `uint8` takes place.
* `float32` and `float64` arithmetic is IEEE-754 round-to-nearest-even on exact
  rationals (`roundFloat`), each operation rounded on its own, as the source
  writes it.
* A source frame is its bounds, the grid of its pixels' colours and entry 0 of
  its palette (what `frame.At` returns outside the bounds); an output frame is
  its bounds, a grid of palette indices and its palette.
* `for` loops over a counter that the body does not change are monadic folds
  over `List.range`.
-/

namespace GolangDither

/-! ## Floating point -/

/-- Round a rational to the nearest integer, ties going to the even one. -/
def roundHalfEven (q : ℚ) : ℤ :=
  let f := ⌊q⌋
  if q - f < 1 / 2 then f
  else if 1 / 2 < q - f then f + 1
  else if f % 2 = 0 then f else f + 1

/-- Round a rational to the nearest binary floating-point number with a
significand of `p` bits (round-to-nearest, ties-to-even). The exponent range is
not bounded: every magnitude that `dither.go` can produce from 64-bit integers
lies far inside the normal range of both `float32` and `float64`. -/
def roundFloat (p : ℕ) (q : ℚ) : ℚ :=
  if q = 0 then 0
  else
    let e : ℤ := Int.log 2 |q| - ((p : ℤ) - 1)
    (roundHalfEven (q / (2 : ℚ) ^ e) : ℚ) * (2 : ℚ) ^ e

/-- Rounding to `float32` (24-bit significand). -/
def float32 (q : ℚ) : ℚ := roundFloat 24 q

/-- Rounding to `float64` (53-bit significand). -/
def float64 (q : ℚ) : ℚ := roundFloat 53 q

/-- Conversion `uint8(f)` of a floating-point value: the fraction is discarded
(truncation toward zero). -/
def toUint8 (q : ℚ) : ℕ :=
  ((if 0 ≤ q then ⌊q⌋ else ⌈q⌉) % 256).toNat

/-! ## Colours and palettes -/

/-- A `color.RGBA` value: four 8-bit channels. -/
structure Color where
  R : ℕ
  G : ℕ
  B : ℕ
  A : ℕ
deriving DecidableEq, Repr

/-- The method `RGBA()` of `color.RGBA`: each channel widened to 16 bits
(`r |= r << 8`). -/
def Color.RGBA (c : Color) : ℕ × ℕ × ℕ × ℕ :=
  (c.R ||| (c.R <<< 8), c.G ||| (c.G <<< 8), c.B ||| (c.B <<< 8), c.A ||| (c.A <<< 8))

/-- Black and white. -/
def oneBit : List Color := [⟨0, 0, 0, 255⟩, ⟨255, 255, 255, 255⟩]

/-- Greyscale. -/
def greys : List Color :=
  [⟨51, 51, 51, 255⟩, ⟨102, 102, 102, 255⟩, ⟨153, 153, 153, 255⟩, ⟨204, 204, 204, 255⟩]

/-- Green-grey gradient. -/
def gameboy : List Color :=
  [⟨8, 24, 32, 255⟩, ⟨52, 104, 86, 255⟩, ⟨136, 192, 112, 255⟩, ⟨224, 248, 208, 255⟩]

/-- Black and lime green. -/
def retro : List Color := [⟨40, 40, 40, 255⟩, ⟨51, 255, 51, 255⟩]

/-- Blue and white. -/
def aqua : List Color :=
  [⟨0, 128, 191, 255⟩, ⟨0, 172, 223, 255⟩, ⟨85, 208, 255, 255⟩, ⟨124, 232, 255, 255⟩]

/-- Reds and browns. -/
def warm : List Color :=
  [⟨100, 69, 54, 255⟩, ⟨178, 103, 94, 255⟩, ⟨196, 163, 129, 255⟩, ⟨238, 241, 189, 255⟩]

/-! ## Grayscale conversion and error push -/

/-- Given an RGBA colour, the 8-bit grayscale equivalent
(`0.299*R + 0.587*G + 0.114*B` in `float64`, converted to `uint8`). -/
def findGray (inPix : Color) : ℕ :=
  let (r, g, b, _) := inPix.RGBA
  let gray : ℚ :=
    float64 (float64 (float64 (float64 (299 / 1000) * float64 ((r >>> 8 : ℕ) : ℚ))
        + float64 (float64 (587 / 1000) * float64 ((g >>> 8 : ℕ) : ℚ)))
      + float64 (float64 (114 / 1000) * float64 ((b >>> 8 : ℕ) : ℚ)))
  toUint8 gray

/-- Add the share `numerator/16` of the quantization error to a neighbouring
pixel, in `float32`, and clip into the range 0-255. -/
def pushError (grayVal : ℕ) (quantError : ℤ) (numerator : ℤ) : ℕ :=
  let newPix : ℚ :=
    float32 (float32 (grayVal : ℚ)
      + float32 (float32 (quantError : ℚ) * float32 (float32 (numerator : ℚ) / float32 16)))
  if newPix > 255 then 255
  else if newPix < 0 then 0
  else toUint8 newPix

/-- The quantization branch of `dither` (source lines 138-160): the palette
index whose colour is written to the output pixel, and the value `newPix` used
for the quantization error. -/
def quantize (paletteSize : ℤ) (oldPix : ℕ) : ℕ × ℕ :=
  if paletteSize = 4 then
    if oldPix < 64 then (0, 31)
    else if oldPix < 128 then (1, 95)
    else if oldPix < 192 then (2, 159)
    else (3, 223)
  else
    if oldPix < 128 then (0, 31)
    else (1, 223)

/-! ## Slices -/

/-- Indexing `s[i]` of a Go slice: a panic when `i` is out of range. -/
def index {α : Type} (s : List α) (i : ℤ) : Option α :=
  if 0 ≤ i then s[i.toNat]? else none

/-- Assignment `s[i] = v` to a Go slice: a panic when `i` is out of range. -/
def store {α : Type} (s : List α) (i : ℤ) (v : α) : Option (List α) :=
  if 0 ≤ i ∧ i < s.length then some (s.set i.toNat v) else none

/-- The grayscale grid `grayPix [][]uint8`: a slice of rows; a `nil` row is the
empty list. -/
abbrev Grid := List (List ℕ)

/-- Reading `grayPix[y][x]`. -/
def getCell (g : Grid) (y x : ℤ) : Option ℕ :=
  (index g y).bind fun row => index row x

/-- Writing `grayPix[y][x] = v`. -/
def setCell (g : Grid) (y x : ℤ) (v : ℕ) : Option Grid :=
  (index g y).bind fun row => (store row x v).bind fun row1 => store g y row1

/-- A well-formed grayscale grid of width `w` and height `h`: `h` rows of `w`
values each. -/
def Grid.WellFormed (w h : ℕ) (g : Grid) : Prop :=
  g.length = h ∧ ∀ row ∈ g, row.length = w

instance (w h : ℕ) (g : Grid) : Decidable (Grid.WellFormed w h g) := by
  unfold Grid.WellFormed
  infer_instance

/-! ## Frames -/

/-- A well-formed `image.Rectangle`, given by its corner `Min = (MinX, MinY)`
and its size: `Max` is `(MinX + Dx, MinY + Dy)`, and `Dx()`, `Dy()` are the
fields `Dx`, `Dy`. A decoded GIF frame carries its left and top offset in
`Min`. -/
structure Rectangle where
  MinX : ℤ
  MinY : ℤ
  Dx : ℕ
  Dy : ℕ
deriving DecidableEq, Repr

/-- `image.Point{x, y}.In(r)`. -/
def Rectangle.contains (r : Rectangle) (x y : ℤ) : Prop :=
  r.MinX ≤ x ∧ x < r.MinX + r.Dx ∧ r.MinY ≤ y ∧ y < r.MinY + r.Dy

instance (r : Rectangle) (x y : ℤ) : Decidable (r.contains x y) := by
  unfold Rectangle.contains
  infer_instance

/-- A source frame (`*image.Paletted` as the GIF decoder gives it, with a
palette that is not empty and pixel indices inside it): its bounds `Rect`
(`frame.Bounds()`), the colours of its pixels row by row, `pixels[y'][x']`
being the colour of the pixel `(MinX + x', MinY + y')`, and `first`, entry 0
of its palette. -/
structure Frame where
  Rect : Rectangle
  pixels : List (List Color)
  first : Color
deriving DecidableEq, Repr

/-- The colour `frame.At(x, y)`: the pixel's colour inside the bounds, entry 0
of the frame's palette outside them. -/
def Frame.At (frame : Frame) (x y : ℤ) : Color :=
  if frame.Rect.contains x y then
    (frame.pixels.getD (y - frame.Rect.MinY).toNat []).getD (x - frame.Rect.MinX).toNat
      ⟨0, 0, 0, 0⟩
  else frame.first

/-- A well-formed source frame: `Dy` rows of `Dx` colours each. -/
def Frame.WellFormed (frame : Frame) : Prop :=
  frame.pixels.length = frame.Rect.Dy ∧ ∀ row ∈ frame.pixels, row.length = frame.Rect.Dx

/-- An output frame (`*image.Paletted`): its bounds `Rect`, one palette index
per pixel, row-major with stride `Rect.Dx`, and the palette. -/
structure Paletted where
  Rect : Rectangle
  Pix : List ℕ
  Palette : List Color
deriving DecidableEq, Repr

/-- `image.NewPaletted(r, palette)`: an image with bounds `r`, all pixels at
index 0. -/
def NewPaletted (r : Rectangle) (palette : List Color) : Paletted :=
  ⟨r, List.replicate (r.Dx * r.Dy) 0, palette⟩

/-- `sqDiff` of package `image/color`: squared difference of two `uint32`
channel values, shifted right by two. -/
def sqDiff (x y : ℕ) : ℕ :=
  let d := (x + 2 ^ 32 - y) % 2 ^ 32
  ((d * d) % 2 ^ 32) >>> 2

/-- The loop of `color.Palette.Index`: the first entry at the least distance,
returning at once on an exact match. -/
def indexLoop (c : Color) : List Color → ℕ → ℕ → ℕ → ℕ
  | [], _, ret, _ => ret
  | v :: vs, i, ret, bestSum =>
    let (cr, cg, cb, ca) := c.RGBA
    let (vr, vg, vb, va) := v.RGBA
    let sum := (sqDiff cr vr + sqDiff cg vg + sqDiff cb vb + sqDiff ca va) % 2 ^ 32
    if sum < bestSum then
      if sum = 0 then i else indexLoop c vs (i + 1) i sum
    else indexLoop c vs (i + 1) ret bestSum

/-- `color.Palette.Index(c)`: index of the palette colour closest to `c`. -/
def paletteIndex (p : List Color) (c : Color) : ℕ :=
  indexLoop c p 0 0 (2 ^ 32 - 1)

/-- `newImg.Set(x, y, c)`: outside the bounds nothing happens; inside, the pixel
at `PixOffset(x, y)` receives `uint8(Palette.Index(c))`. -/
def Paletted.Set (img : Paletted) (x y : ℤ) (c : Color) : Paletted :=
  if img.Rect.contains x y then
    { img with
      Pix := img.Pix.set ((y - img.Rect.MinY) * (img.Rect.Dx : ℤ) + (x - img.Rect.MinX)).toNat
        (paletteIndex img.Palette c % 256) }
  else img

/-! ## The frame ditherer -/

/-- One neighbour update `grayPix[y][x] = pushError(grayPix[y][x], quantError, numerator)`. -/
def update (g : Grid) (y x : ℤ) (quantError numerator : ℤ) : Option Grid :=
  (getCell g y x).bind fun old => setCell g y x (pushError old quantError numerator)

/-- The diffusion step of `dither` at pixel `(x, y)` (source lines 177-188). -/
def diffuse (w h : ℤ) (grayPix : Grid) (x y : ℤ) (quantError : ℤ) : Option Grid :=
  (if x + 1 < w then update grayPix y (x + 1) quantError 7 else some grayPix).bind fun g1 =>
    if y + 1 < h then
      (if x - 1 > 0 then update g1 (y + 1) (x - 1) quantError 3 else some g1).bind fun g2 =>
        (update g2 (y + 1) x quantError 5).bind fun g3 =>
          if x + 1 < w then update g3 (y + 1) (x + 1) quantError 1 else some g3
    else some g1

/-- The cells that the diffusion step at `(x, y)` writes, in program order, each
as `(y', x', numerator)`: the guards of source lines 177-188. -/
def diffuseTargets (w h x y : ℤ) : List (ℤ × ℤ × ℤ) :=
  (if x + 1 < w then [(y, x + 1, 7)] else [])
    ++ (if y + 1 < h then
          (if x - 1 > 0 then [(y + 1, x - 1, 3)] else [])
            ++ [(y + 1, x, 5)]
            ++ (if x + 1 < w then [(y + 1, x + 1, 1)] else [])
        else [])

/-- Applying a list of neighbour updates one after another. -/
def applyUpdates (quantError : ℤ) (ts : List (ℤ × ℤ × ℤ)) (g : Grid) : Option Grid :=
  ts.foldlM (fun g1 t => update g1 t.1 t.2.1 quantError t.2.2) g

/-- The state of the scan loop: the grayscale grid and the output frame. -/
structure ScanState where
  grayPix : Grid
  newImg : Paletted
deriving DecidableEq, Repr

/-- The body of the scan loop of `dither` at pixel `(x, y)` (source lines 126-188). -/
def pixelStep (w h : ℕ) (palette : List Color) (paletteSize : ℤ) (s : ScanState) (y x : ℕ) :
    Option ScanState :=
  (getCell s.grayPix y x).bind fun oldPix =>
    let kn := quantize paletteSize oldPix
    (palette[kn.1]?).bind fun c =>
      let newImg := s.newImg.Set x y c
      let quantError : ℤ := (oldPix : ℤ) - (kn.2 : ℤ)
      (diffuse w h s.grayPix x y quantError).bind fun grayPix =>
        some ⟨grayPix, newImg⟩

/-- The scan loop of `dither` (source lines 124-190): rows top to bottom, each
row left to right. -/
def scan (w h : ℕ) (palette : List Color) (paletteSize : ℤ) (s : ScanState) : Option ScanState :=
  (List.range h).foldlM
    (fun (s1 : ScanState) (y : ℕ) =>
      (List.range w).foldlM (fun (s2 : ScanState) (x : ℕ) => pixelStep w h palette paletteSize s2 y x) s1)
    s

/-- The pixels in the order in which the scan loop visits them, each as `(y, x)`. -/
def scanOrder (w h : ℕ) : List (ℕ × ℕ) :=
  (List.range h).flatMap fun y => (List.range w).map fun x => (y, x)

/-- The body of the scan loop run over a list of pixels `(y, x)`, one after
another. -/
def runSteps (w h : ℕ) (palette : List Color) (paletteSize : ℤ) (ps : List (ℕ × ℕ))
    (s : ScanState) : Option ScanState :=
  ps.foldlM (fun (s1 : ScanState) (p : ℕ × ℕ) => pixelStep w h palette paletteSize s1 p.1 p.2) s

/-- The construction of the grayscale grid (source lines 106-112). Each pass of
the row loop allocates row `i`, the slot index of the frame, and then fills
row `y`; the counters `x`, `y` start at 0, whatever the corner of the bounds. -/
def buildGray (i : ℤ) (frame : Frame) : Option Grid :=
  (List.range frame.Rect.Dy).foldlM
    (fun (g : Grid) (y : ℕ) =>
      (store g i (List.replicate frame.Rect.Dx 0)).bind fun g1 =>
        (List.range frame.Rect.Dx).foldlM
          (fun (g2 : Grid) (x : ℕ) => setCell g2 y x (findGray (frame.At x y))) g1)
    (List.replicate frame.Rect.Dy [])

/-- The memory that `dither` receives by reference: the frame behind the
pointer `frame`, the backing array of `palette` and that of `imgArr`. -/
structure Shared where
  frame : Frame
  palette : List Color
  imgArr : List (Option Paletted)
deriving DecidableEq, Repr

/-- The function `dither` (source lines 91-198): the referenced memory after the
run, or `none` when the run panics. The deferred `wg.Done()` is not modelled. -/
def dither (i : ℤ) (frame : Frame) (palette : List Color) (paletteSize : ℤ)
    (imgArr : List (Option Paletted)) : Option Shared :=
  let bounds := frame.Rect
  let w := bounds.Dx
  let h := bounds.Dy
  (buildGray i frame).bind fun grayPix =>
    let newImg := NewPaletted frame.Rect palette
    (scan w h palette paletteSize ⟨grayPix, newImg⟩).bind fun s =>
      (store imgArr i (some s.newImg)).bind fun imgArr1 =>
        some ⟨frame, palette, imgArr1⟩

/-! ## The frame-parallel coordinator -/

/-- The output animation `gif.GIF`: frames and delays. -/
structure GIF where
  Image : List (Option Paletted)
  Delay : List ℤ
deriving DecidableEq, Repr

/-- The per-frame tasks of `main` (source lines 275-279), run to completion one
after another in the order `order`; a panic in any task ends the program. -/
def runTasks (order : List ℕ) (image : List Frame) (palette : List Color) (paletteSize : ℤ)
    (imgArr : List (Option Paletted)) : Option (List (Option Paletted)) :=
  order.foldlM
    (fun (arr : List (Option Paletted)) (i : ℕ) => (image[i]?).bind fun frame =>
      (dither i frame palette paletteSize arr).map fun m => m.imgArr)
    imgArr

/-- The assembly loop of `main` (source lines 281-289). -/
def assemble (n : ℕ) (imgArr : List (Option Paletted)) : Option GIF :=
  (List.range n).foldlM
    (fun (anim : GIF) (i : ℕ) => (index imgArr i).bind fun img =>
      some ⟨anim.Image ++ [img], anim.Delay ++ [0]⟩)
    ⟨[], []⟩

/-- The coordinator of `main` (source lines 266-289) for a palette and decoded
frames `image`, its tasks scheduled in the order `order`. -/
def coordinate (order : List ℕ) (image : List Frame) (palette : List Color) : Option GIF :=
  let paletteSize : ℤ := palette.length
  let imgArr : List (Option Paletted) := List.replicate image.length none
  (runTasks order image palette paletteSize imgArr).bind fun arr =>
    assemble image.length arr

/-! ## Sample frames -/

/-- A 1x1 frame at the origin holding one opaque black pixel. -/
def blackPixelFrame : Frame := ⟨⟨0, 0, 1, 1⟩, [[⟨0, 0, 0, 255⟩]], ⟨0, 0, 0, 255⟩⟩

/-- A frame at the origin, one pixel wide and two pixels high, both pixels
opaque black. -/
def blackColumnFrame : Frame :=
  ⟨⟨0, 0, 1, 2⟩, [[⟨0, 0, 0, 255⟩], [⟨0, 0, 0, 255⟩]], ⟨0, 0, 0, 255⟩⟩

/-- A 2x2 frame at the origin, all four pixels opaque black. -/
def blackSquareFrame : Frame :=
  ⟨⟨0, 0, 2, 2⟩, [[⟨0, 0, 0, 255⟩, ⟨0, 0, 0, 255⟩], [⟨0, 0, 0, 255⟩, ⟨0, 0, 0, 255⟩]],
    ⟨0, 0, 0, 255⟩⟩

/-- A 1x1 frame at the origin holding one opaque green pixel of grayscale
value 100. -/
def greenPixelFrame : Frame := ⟨⟨0, 0, 1, 1⟩, [[⟨0, 171, 0, 255⟩]], ⟨0, 171, 0, 255⟩⟩

/-- A 1x1 frame with bounds `(1,0)-(2,1)` holding one opaque white pixel, white
being entry 0 of its palette. -/
def whiteOffsetFrame : Frame :=
  ⟨⟨1, 0, 1, 1⟩, [[⟨255, 255, 255, 255⟩]], ⟨255, 255, 255, 255⟩⟩

/-- A 1x1 frame with bounds `(1,0)-(2,1)` holding one opaque white pixel, black
being entry 0 of its palette. -/
def whiteOnBlackOffsetFrame : Frame :=
  ⟨⟨1, 0, 1, 1⟩, [[⟨255, 255, 255, 255⟩]], ⟨0, 0, 0, 255⟩⟩

/-- The six palettes that `dither.go` defines. -/
def definedPalettes : List (List Color) := [oneBit, greys, gameboy, retro, aqua, warm]

/-- The grayscale value as the specification words it: the truncation of
`0.299*R + 0.587*G + 0.114*B` computed in exact arithmetic. -/
def findGrayExact (inPix : Color) : ℕ :=
  let (r, g, b, _) := inPix.RGBA
  toUint8 ((299 / 1000 : ℚ) * ((r >>> 8 : ℕ) : ℚ) + (587 / 1000 : ℚ) * ((g >>> 8 : ℕ) : ℚ)
    + (114 / 1000 : ℚ) * ((b >>> 8 : ℕ) : ℚ))

/-- The `float64` expression of `findGray` on channel values `r`, `g`, `b`
(the `r>>8`, `g>>8`, `b>>8` of the source). -/
def grayFloat (r g b : ℕ) : ℚ :=
  float64 (float64 (float64 (float64 (299 / 1000) * float64 (r : ℚ))
      + float64 (float64 (587 / 1000) * float64 (g : ℚ)))
    + float64 (float64 (114 / 1000) * float64 (b : ℚ)))

/-! ## The command line -/

/-- The value of a run of decimal digits, most significant first, added to
`acc`; `none` when a character is not a decimal digit. -/
def parseDigits : List Char → ℕ → Option ℕ
  | [], acc => some acc
  | c :: cs, acc =>
    if 48 ≤ c.toNat ∧ c.toNat ≤ 57 then parseDigits cs (acc * 10 + (c.toNat - 48)) else none

/-- `strconv.Atoi(s)` for a 64-bit `int`: an optional sign, then one or more
decimal digits, the value within the range of `int`; `none` is a non-nil
error. -/
def Atoi (s : String) : Option ℤ :=
  let signed : Bool × List Char :=
    match s.toList with
    | '-' :: ds => (true, ds)
    | '+' :: ds => (false, ds)
    | ds => (false, ds)
  match signed.2 with
  | [] => none
  | ds =>
    (parseDigits ds 0).bind fun n =>
      let v : ℤ := if signed.1 then -(n : ℤ) else (n : ℤ)
      if -(2 : ℤ) ^ 63 ≤ v ∧ v < (2 : ℤ) ^ 63 then some v else none

/-- `strings.HasSuffix(s, suffix)`. -/
def HasSuffix (s suffix : String) : Bool :=
  suffix.toList.isSuffixOf s.toList

/-- The `switch` on the palette argument (source lines 229-240), entered with
`palette = oneBit`: the values 2 to 6 select another palette, every other
value leaves `oneBit`. -/
def switchPalette (paletteArg : ℤ) : List Color :=
  if paletteArg = 2 then greys
  else if paletteArg = 3 then gameboy
  else if paletteArg = 4 then retro
  else if paletteArg = 5 then aqua
  else if paletteArg = 6 then warm
  else oneBit

/-- How the argument handling of `main` (source lines 212-242) ends: with
`os.Exit` after a message, before any file is opened or frame processed, or by
going on with a palette and its size. -/
inductive Startup where
  | exit (status : ℕ) (message : String)
  | proceed (palette : List Color) (paletteSize : ℤ)
deriving DecidableEq, Repr

/-- The argument handling of `main` (source lines 212-242) on `os.Args`. -/
def startup (args : List String) : Startup :=
  if args.length < 3 ∨ HasSuffix (args.getD 1 "") ".gif" = false
      ∨ HasSuffix (args.getD 2 "") ".gif" = false then
    Startup.exit 1 "Usage:\ngo run dither.go [infile] [outfile] [palette (1-6)]"
  else if args.length = 4 then
    match Atoi (args.getD 3 "") with
    | none => Startup.exit 1 "Invalid palette argument (expecting value 1-6)"
    | some paletteArg =>
      Startup.proceed (switchPalette paletteArg) ((switchPalette paletteArg).length : ℤ)
  else Startup.proceed oneBit (oneBit.length : ℤ)

/-! ## Floating-point rounding -/

theorem roundHalfEven_intCast (z : ℤ) : roundHalfEven (z : ℚ) = z := by
  simp [roundHalfEven]

theorem floor_le_roundHalfEven (q : ℚ) : ⌊q⌋ ≤ roundHalfEven q := by
  unfold roundHalfEven
  simp only
  split_ifs <;> omega

theorem roundHalfEven_le_ceil (q : ℚ) : roundHalfEven q ≤ ⌈q⌉ := by
  unfold roundHalfEven
  simp only
  by_cases h : q - ⌊q⌋ < 1 / 2
  · rw [if_pos h]
    exact Int.floor_le_ceil q
  · have hlt : (⌊q⌋ : ℚ) < q := by linarith
    have hc : ⌊q⌋ + 1 ≤ ⌈q⌉ := by
      have : ⌊q⌋ < ⌈q⌉ := by
        rw [Int.lt_ceil]
        exact hlt
      omega
    rw [if_neg h]
    split_ifs <;> omega

theorem two_zpow_pos (e : ℤ) : (0 : ℚ) < (2 : ℚ) ^ e := zpow_pos (by norm_num) e

/-- A number with a significand of fewer than `p` bits is a floating-point
number: rounding leaves it as it is. -/
theorem roundFloat_exact (p : ℕ) (k j : ℤ) (hk : |k| < 2 ^ p) :
    roundFloat p ((k : ℚ) * (2 : ℚ) ^ j) = (k : ℚ) * (2 : ℚ) ^ j := by
  unfold roundFloat
  by_cases hq : (k : ℚ) * (2 : ℚ) ^ j = 0
  · simp [hq]
  rw [if_neg hq]
  simp only
  set q : ℚ := (k : ℚ) * (2 : ℚ) ^ j with hqdef
  set L : ℤ := Int.log 2 |q| with hL
  have hqpos : 0 < |q| := abs_pos.mpr hq
  have h1 : ((2 : ℕ) : ℚ) ^ L ≤ |q| := Int.zpow_log_le_self (by norm_num) hqpos
  have h1' : (2 : ℚ) ^ L ≤ |q| := by exact_mod_cast h1
  -- |q| = |k| * 2^j < 2^p * 2^j
  have habs : |q| = (|k| : ℤ) * (2 : ℚ) ^ j := by
    rw [hqdef, abs_mul, abs_of_pos (two_zpow_pos j)]
    push_cast
    rfl
  have hkq : ((|k| : ℤ) : ℚ) < (2 : ℚ) ^ (p : ℤ) := by
    have : ((|k| : ℤ) : ℚ) < ((2 ^ p : ℤ) : ℚ) := by exact_mod_cast hk
    simpa using this
  have h2 : (2 : ℚ) ^ L < (2 : ℚ) ^ ((p : ℤ) + j) := by
    calc (2 : ℚ) ^ L ≤ |q| := h1'
      _ = (|k| : ℤ) * (2 : ℚ) ^ j := habs
      _ < (2 : ℚ) ^ (p : ℤ) * (2 : ℚ) ^ j := by
          apply mul_lt_mul_of_pos_right hkq (two_zpow_pos j)
      _ = (2 : ℚ) ^ ((p : ℤ) + j) := by rw [zpow_add₀ (by norm_num)]
  have h3 : L < (p : ℤ) + j := by
    exact (zpow_lt_zpow_iff_right₀ (by norm_num : (1 : ℚ) < 2)).mp h2
  -- the shift is a natural number
  obtain ⟨n, hn⟩ : ∃ n : ℕ, j - (L - ((p : ℤ) - 1)) = (n : ℤ) :=
    ⟨(j - (L - ((p : ℤ) - 1))).toNat, by rw [Int.toNat_of_nonneg]; omega⟩
  have hdiv : q / (2 : ℚ) ^ (L - ((p : ℤ) - 1)) = ((k * 2 ^ n : ℤ) : ℚ) := by
    rw [hqdef, mul_div_assoc, ← zpow_sub₀ (by norm_num : (2 : ℚ) ≠ 0), hn]
    push_cast
    rw [zpow_natCast]
  rw [hdiv, roundHalfEven_intCast]
  push_cast
  rw [mul_assoc, ← zpow_natCast, ← hn, ← zpow_add₀ (by norm_num : (2 : ℚ) ≠ 0)]
  congr 2
  ring

theorem roundFloat_intCast (p : ℕ) (k : ℤ) (hk : |k| < 2 ^ p) :
    roundFloat p (k : ℚ) = (k : ℚ) := by
  have := roundFloat_exact p k 0 hk
  simpa using this

/-- Rounding does not go below a power of two that the argument reaches. -/
theorem le_roundFloat (p : ℕ) (hp : 1 ≤ p) (n : ℤ) (q : ℚ) (h : (2 : ℚ) ^ n ≤ q) :
    (2 : ℚ) ^ n ≤ roundFloat p q := by
  have hqpos : 0 < q := lt_of_lt_of_le (two_zpow_pos n) h
  unfold roundFloat
  rw [if_neg hqpos.ne']
  simp only
  rw [abs_of_pos hqpos]
  set L : ℤ := Int.log 2 q with hL
  have hnL : n ≤ L := by
    have : ((2 : ℕ) : ℚ) ^ n ≤ q := by exact_mod_cast h
    exact (Int.zpow_le_iff_le_log (by norm_num) hqpos).mp this
  have h1 : ((2 : ℕ) : ℚ) ^ L ≤ q := Int.zpow_log_le_self (by norm_num) hqpos
  have h1' : (2 : ℚ) ^ L ≤ q := by exact_mod_cast h1
  set e : ℤ := L - ((p : ℤ) - 1) with he
  have hx : (((2 ^ (p - 1) : ℕ) : ℤ) : ℚ) ≤ q / (2 : ℚ) ^ e := by
    rw [le_div_iff₀ (two_zpow_pos e)]
    push_cast
    rw [← zpow_natCast, ← zpow_add₀ (by norm_num : (2 : ℚ) ≠ 0)]
    have : ((p - 1 : ℕ) : ℤ) + e = L := by
      rw [he]; push_cast [hp]; ring
    rw [this]
    exact h1'
  have hfl : ((2 ^ (p - 1) : ℕ) : ℤ) ≤ roundHalfEven (q / (2 : ℚ) ^ e) :=
    le_trans (Int.le_floor.mpr hx) (floor_le_roundHalfEven _)
  have hfl' : (((2 ^ (p - 1) : ℕ) : ℤ) : ℚ) ≤ (roundHalfEven (q / (2 : ℚ) ^ e) : ℚ) := by
    exact_mod_cast hfl
  calc (2 : ℚ) ^ n ≤ (2 : ℚ) ^ L := zpow_le_zpow_right₀ (by norm_num) hnL
    _ = (((2 ^ (p - 1) : ℕ) : ℤ) : ℚ) * (2 : ℚ) ^ e := by
        push_cast
        rw [← zpow_natCast, ← zpow_add₀ (by norm_num : (2 : ℚ) ≠ 0)]
        congr 1
        rw [he]; push_cast [hp]; ring
    _ ≤ (roundHalfEven (q / (2 : ℚ) ^ e) : ℚ) * (2 : ℚ) ^ e :=
        mul_le_mul_of_nonneg_right hfl' (two_zpow_pos e).le

/-- Rounding does not go above the negative of a power of two that the argument
stays below. -/
theorem roundFloat_le_neg (p : ℕ) (hp : 1 ≤ p) (n : ℤ) (q : ℚ) (h : q ≤ -(2 : ℚ) ^ n) :
    roundFloat p q ≤ -(2 : ℚ) ^ n := by
  have hqneg : q < 0 := lt_of_le_of_lt h (neg_lt_zero.mpr (two_zpow_pos n))
  unfold roundFloat
  rw [if_neg hqneg.ne]
  simp only
  rw [abs_of_neg hqneg]
  set L : ℤ := Int.log 2 (-q) with hL
  have hqpos : 0 < -q := neg_pos.mpr hqneg
  have hnL : n ≤ L := by
    have : ((2 : ℕ) : ℚ) ^ n ≤ -q := by
      have : (2 : ℚ) ^ n ≤ -q := by linarith
      exact_mod_cast this
    exact (Int.zpow_le_iff_le_log (by norm_num) hqpos).mp this
  have h1 : ((2 : ℕ) : ℚ) ^ L ≤ -q := Int.zpow_log_le_self (by norm_num) hqpos
  have h1' : (2 : ℚ) ^ L ≤ -q := by exact_mod_cast h1
  set e : ℤ := L - ((p : ℤ) - 1) with he
  have hpow : (((2 ^ (p - 1) : ℕ) : ℤ) : ℚ) * (2 : ℚ) ^ e = (2 : ℚ) ^ L := by
    push_cast
    rw [← zpow_natCast, ← zpow_add₀ (by norm_num : (2 : ℚ) ≠ 0)]
    congr 1
    rw [he]; push_cast [hp]; ring
  have hx : q / (2 : ℚ) ^ e ≤ ((-((2 ^ (p - 1) : ℕ) : ℤ) : ℤ) : ℚ) := by
    rw [div_le_iff₀ (two_zpow_pos e)]
    push_cast
    have := hpow
    push_cast at this
    rw [neg_mul, this]
    linarith
  have hcl : roundHalfEven (q / (2 : ℚ) ^ e) ≤ -((2 ^ (p - 1) : ℕ) : ℤ) :=
    le_trans (roundHalfEven_le_ceil _) (Int.ceil_le.mpr hx)
  have hcl' : (roundHalfEven (q / (2 : ℚ) ^ e) : ℚ) ≤ ((-((2 ^ (p - 1) : ℕ) : ℤ) : ℤ) : ℚ) := by
    exact_mod_cast hcl
  calc (roundHalfEven (q / (2 : ℚ) ^ e) : ℚ) * (2 : ℚ) ^ e
      ≤ ((-((2 ^ (p - 1) : ℕ) : ℤ) : ℤ) : ℚ) * (2 : ℚ) ^ e :=
        mul_le_mul_of_nonneg_right hcl' (two_zpow_pos e).le
    _ = -(2 : ℚ) ^ L := by
        have := hpow
        push_cast at this ⊢
        rw [neg_mul, this]
    _ ≤ -(2 : ℚ) ^ n := by
        have := zpow_le_zpow_right₀ (by norm_num : (1 : ℚ) ≤ 2) hnL
        linarith

/-! ## The value of `pushError` -/

theorem float32_intCast (k : ℤ) (hk : |k| < 2 ^ 24) : float32 (k : ℚ) = (k : ℚ) :=
  roundFloat_intCast 24 k hk

theorem float32_sixteenth (k : ℤ) (hk : |k| < 2 ^ 24) :
    float32 ((k : ℚ) / 16) = (k : ℚ) / 16 := by
  have h := roundFloat_exact 24 k (-4) hk
  have e : (k : ℚ) * (2 : ℚ) ^ (-4 : ℤ) = (k : ℚ) / 16 := by
    rw [zpow_neg, div_eq_mul_inv]
    norm_num
  rw [e] at h
  exact h

theorem toUint8_sixteenth (m : ℤ) (h0 : 0 ≤ m) (h1 : m ≤ 16 * 255) :
    toUint8 ((m : ℚ) / 16) = (m / 16).toNat := by
  unfold toUint8
  have hq : (0 : ℚ) ≤ (m : ℚ) / 16 := by positivity
  rw [if_pos hq]
  have hfl : ⌊(m : ℚ) / 16⌋ = m / 16 := by
    have := Rat.floor_intCast_div_natCast m 16
    simpa using this
  rw [hfl]
  congr 1
  omega

/-- The value of `pushError` in integer arithmetic: for an 8-bit `grayVal` and
a numerator from 1 to 7 the `float32` computation is either exact or far
outside the range 0-255. -/
theorem pushError_eq (grayVal : ℕ) (quantError numerator : ℤ) (hg : grayVal ≤ 255)
    (hn1 : 1 ≤ numerator) (hn7 : numerator ≤ 7) :
    pushError grayVal quantError numerator =
      if 16 * 255 < 16 * (grayVal : ℤ) + quantError * numerator then 255
      else if 16 * (grayVal : ℤ) + quantError * numerator < 0 then 0
      else ((16 * (grayVal : ℤ) + quantError * numerator) / 16).toNat := by
  have hgf : float32 ((grayVal : ℕ) : ℚ) = (grayVal : ℚ) := by
    have := float32_intCast (grayVal : ℤ) (by rw [abs_of_nonneg (by omega)]; omega)
    simpa using this
  have hnf : float32 (numerator : ℚ) = (numerator : ℚ) :=
    float32_intCast numerator (by rw [abs_lt]; constructor <;> omega)
  have h16 : float32 (16 : ℚ) = 16 := by
    have := float32_intCast 16 (by norm_num)
    simpa using this
  have hfrac : float32 ((numerator : ℚ) / 16) = (numerator : ℚ) / 16 :=
    float32_sixteenth numerator (by rw [abs_lt]; constructor <;> omega)
  have hnq1 : (1 : ℚ) ≤ (numerator : ℚ) := by exact_mod_cast hn1
  have hnq7 : (numerator : ℚ) ≤ 7 := by exact_mod_cast hn7
  have hgq0 : (0 : ℚ) ≤ (grayVal : ℚ) := by positivity
  have hgq : (grayVal : ℚ) ≤ 255 := by exact_mod_cast hg
  unfold pushError
  simp only [hgf, hnf, h16, hfrac]
  rcases le_or_lt (|quantError * numerator|) (2 ^ 23) with hsmall | hbig
  · -- every operation is exact
    have hqn := abs_le.mp hsmall
    have hqe : |quantError| < 2 ^ 24 := by
      rw [abs_lt]
      constructor <;> nlinarith
    have hqf : float32 (quantError : ℚ) = (quantError : ℚ) := float32_intCast quantError hqe
    have hprod : float32 ((quantError : ℚ) * ((numerator : ℚ) / 16))
        = ((quantError * numerator : ℤ) : ℚ) / 16 := by
      have := float32_sixteenth (quantError * numerator) (by rw [abs_lt]; constructor <;> omega)
      rw [← this]
      congr 1
      push_cast
      ring
    have hsum : float32 ((grayVal : ℚ) + ((quantError * numerator : ℤ) : ℚ) / 16)
        = ((16 * (grayVal : ℤ) + quantError * numerator : ℤ) : ℚ) / 16 := by
      have := float32_sixteenth (16 * (grayVal : ℤ) + quantError * numerator)
        (by rw [abs_lt]; constructor <;> omega)
      rw [← this]
      congr 1
      push_cast
      ring
    rw [hqf, hprod, hsum]
    set m : ℤ := 16 * (grayVal : ℤ) + quantError * numerator with hm
    have c1 : ((m : ℚ) / 16 > 255) ↔ 16 * 255 < m := by
      rw [gt_iff_lt, lt_div_iff₀ (by norm_num : (0 : ℚ) < 16)]
      constructor
      · intro h
        have : ((4080 : ℤ) : ℚ) < (m : ℚ) := by push_cast; linarith
        have := Int.cast_lt.mp this
        omega
      · intro h
        have : ((4080 : ℤ) : ℚ) < (m : ℚ) := Int.cast_lt.mpr (by omega)
        push_cast at this
        linarith
    have c2 : ((m : ℚ) / 16 < 0) ↔ m < 0 := by
      rw [div_lt_iff₀ (by norm_num : (0 : ℚ) < 16)]
      simp
    by_cases hc1 : 16 * 255 < m
    · rw [if_pos (c1.mpr hc1), if_pos hc1]
    · rw [if_neg (fun h => hc1 (c1.mp h)), if_neg hc1]
      by_cases hc2 : m < 0
      · rw [if_pos (c2.mpr hc2), if_pos hc2]
      · rw [if_neg (fun h => hc2 (c2.mp h)), if_neg hc2]
        exact toUint8_sixteenth m (by omega) (by omega)
  · rcases lt_abs.mp hbig with hpos | hneg
    · -- large positive error: the sum is beyond 255
      have hq20 : (2 : ℤ) ^ 20 ≤ quantError := by nlinarith
      have hq20' : (2 : ℚ) ^ (20 : ℤ) ≤ (quantError : ℚ) := by
        have : ((2 ^ 20 : ℤ) : ℚ) ≤ (quantError : ℚ) := Int.cast_le.mpr hq20
        have e0 : (2 : ℚ) ^ (20 : ℤ) = ((2 ^ 20 : ℤ) : ℚ) := by norm_num
        rw [e0]
        exact this
      have ha := le_roundFloat 24 (by norm_num) 20 _ hq20'
      have hb : (2 : ℚ) ^ (16 : ℤ) ≤ float32 (quantError : ℚ) * ((numerator : ℚ) / 16) := by
        have h2 : (2 : ℚ) ^ (20 : ℤ) ≤ float32 (quantError : ℚ) := ha
        have e1 : (2 : ℚ) ^ (16 : ℤ) = (2 : ℚ) ^ (20 : ℤ) * (1 / 16) := by norm_num
        rw [e1]
        apply mul_le_mul h2 _ (by norm_num) (le_trans (by positivity) h2)
        apply div_le_div_of_nonneg_right hnq1 (by norm_num)
      have hc := le_roundFloat 24 (by norm_num) 16 _ hb
      have hd : (2 : ℚ) ^ (16 : ℤ)
          ≤ (grayVal : ℚ) + float32 (float32 (quantError : ℚ) * ((numerator : ℚ) / 16)) := by
        have : (2 : ℚ) ^ (16 : ℤ)
            ≤ float32 (float32 (quantError : ℚ) * ((numerator : ℚ) / 16)) := hc
        linarith
      have he := le_roundFloat 24 (by norm_num) 16 _ hd
      have hf : float32 ((grayVal : ℚ)
          + float32 (float32 (quantError : ℚ) * ((numerator : ℚ) / 16))) > 255 := by
        have : (2 : ℚ) ^ (16 : ℤ) ≤ float32 ((grayVal : ℚ)
          + float32 (float32 (quantError : ℚ) * ((numerator : ℚ) / 16))) := he
        have e2 : (255 : ℚ) < (2 : ℚ) ^ (16 : ℤ) := by norm_num
        exact lt_of_lt_of_le e2 this
      rw [if_pos hf, if_pos (by omega)]
    · -- large negative error: the sum is below 0
      have hq20 : quantError ≤ -(2 : ℤ) ^ 20 := by nlinarith
      have hq20' : (quantError : ℚ) ≤ -(2 : ℚ) ^ (20 : ℤ) := by
        have : (quantError : ℚ) ≤ ((-(2 ^ 20) : ℤ) : ℚ) := Int.cast_le.mpr hq20
        have e0 : -(2 : ℚ) ^ (20 : ℤ) = ((-(2 ^ 20) : ℤ) : ℚ) := by norm_num
        rw [e0]
        exact this
      have ha : float32 (quantError : ℚ) ≤ -(2 : ℚ) ^ (20 : ℤ) :=
        roundFloat_le_neg 24 (by norm_num) 20 _ hq20'
      have hb : float32 (quantError : ℚ) * ((numerator : ℚ) / 16) ≤ -(2 : ℚ) ^ (16 : ℤ) := by
        have e1 : (2 : ℚ) ^ (16 : ℤ) = (2 : ℚ) ^ (20 : ℤ) * (1 / 16) := by norm_num
        have h3 : (1 : ℚ) / 16 ≤ (numerator : ℚ) / 16 :=
          div_le_div_of_nonneg_right hnq1 (by norm_num)
        have h4 : (2 : ℚ) ^ (20 : ℤ) ≤ -float32 (quantError : ℚ) := by linarith
        have h5 : (2 : ℚ) ^ (20 : ℤ) * (1 / 16)
            ≤ -float32 (quantError : ℚ) * ((numerator : ℚ) / 16) :=
          mul_le_mul h4 h3 (by norm_num) (le_trans (by positivity) h4)
        rw [e1]
        linarith
      have hc : float32 (float32 (quantError : ℚ) * ((numerator : ℚ) / 16))
          ≤ -(2 : ℚ) ^ (16 : ℤ) := roundFloat_le_neg 24 (by norm_num) 16 _ hb
      have hd : (grayVal : ℚ) + float32 (float32 (quantError : ℚ) * ((numerator : ℚ) / 16))
          ≤ -(2 : ℚ) ^ (15 : ℤ) := by
        have e2 : (2 : ℚ) ^ (16 : ℤ) = 65536 := by norm_num
        have e3 : (2 : ℚ) ^ (15 : ℤ) = 32768 := by norm_num
        rw [e2] at hc
        rw [e3]
        linarith
      have he : float32 ((grayVal : ℚ)
          + float32 (float32 (quantError : ℚ) * ((numerator : ℚ) / 16)))
          ≤ -(2 : ℚ) ^ (15 : ℤ) := roundFloat_le_neg 24 (by norm_num) 15 _ hd
      have hneg0 : float32 ((grayVal : ℚ)
          + float32 (float32 (quantError : ℚ) * ((numerator : ℚ) / 16))) < 0 :=
        lt_of_le_of_lt he (neg_lt_zero.mpr (two_zpow_pos 15))
      rw [if_neg (by linarith), if_pos hneg0, if_neg (by omega), if_pos (by omega)]

/-! ## Slices and grid cells -/

theorem index_store {α : Type} {s s1 : List α} {i : ℤ} {v : α} (h : store s i v = some s1)
    (j : ℤ) : index s1 j = if j = i then some v else index s j := by
  unfold store at h
  split at h
  · rename_i hi
    simp only [Option.some.injEq] at h
    subst h
    unfold index
    by_cases hj : 0 ≤ j
    · simp only [hj, if_true, List.getElem?_set]
      by_cases hji : j = i
      · subst hji
        have : j.toNat < s.length := by omega
        simp [this]
      · have : ¬ i.toNat = j.toNat := by omega
        simp [this, hji]
    · have : ¬ j = i := by omega
      simp [hj, this]
  · simp at h

theorem length_store {α : Type} {s s1 : List α} {i : ℤ} {v : α} (h : store s i v = some s1) :
    s1.length = s.length := by
  unfold store at h
  split at h
  · simp only [Option.some.injEq] at h
    subst h
    simp
  · simp at h

theorem store_isSome {α : Type} (s : List α) (i : ℤ) (v : α) (h0 : 0 ≤ i) (h1 : i < s.length) :
    ∃ s1, store s i v = some s1 := by
  unfold store
  rw [if_pos ⟨h0, h1⟩]
  exact ⟨_, rfl⟩

theorem index_isSome {α : Type} (s : List α) (i : ℤ) (h0 : 0 ≤ i) (h1 : i < s.length) :
    ∃ a, index s i = some a := by
  unfold index
  rw [if_pos h0]
  have : i.toNat < s.length := by omega
  exact ⟨s[i.toNat], List.getElem?_eq_getElem this⟩

theorem index_bounds {α : Type} {s : List α} {i : ℤ} {a : α} (h : index s i = some a) :
    0 ≤ i ∧ i < s.length := by
  unfold index at h
  split at h
  · rename_i h0
    have := (List.getElem?_eq_some_iff.mp h).1
    omega
  · simp at h

/-- Reading a cell after a write: the written cell holds the new value, every
other cell is as before. -/
theorem getCell_setCell {g g1 : Grid} {y x : ℤ} {v : ℕ} (h : setCell g y x v = some g1)
    (y1 x1 : ℤ) :
    getCell g1 y1 x1 = if y1 = y ∧ x1 = x then some v else getCell g y1 x1 := by
  unfold setCell at h
  cases hrow : index g y with
  | none => simp [hrow] at h
  | some row =>
    simp only [hrow, Option.some_bind] at h
    cases hst : store row x v with
    | none => simp [hst] at h
    | some row1 =>
      simp only [hst, Option.some_bind] at h
      unfold getCell
      rw [index_store h y1]
      by_cases hy : y1 = y
      · subst hy
        simp only [if_true, Option.some_bind, true_and, hrow]
        exact index_store hst x1
      · simp [hy]

theorem length_setCell {g g1 : Grid} {y x : ℤ} {v : ℕ} (h : setCell g y x v = some g1) :
    g1.length = g.length := by
  unfold setCell at h
  cases hrow : index g y with
  | none => simp [hrow] at h
  | some row =>
    simp only [hrow, Option.some_bind] at h
    cases hst : store row x v with
    | none => simp [hst] at h
    | some row1 =>
      simp only [hst, Option.some_bind] at h
      exact length_store h

/-- An update changes its own cell to the pushed value and no other cell. -/
theorem getCell_update {g g1 : Grid} {y x e n : ℤ} (h : update g y x e n = some g1) (y1 x1 : ℤ) :
    getCell g1 y1 x1 =
      if y1 = y ∧ x1 = x then (getCell g y x).map fun old => pushError old e n
      else getCell g y1 x1 := by
  unfold update at h
  cases hold : getCell g y x with
  | none => simp [hold] at h
  | some old =>
    simp only [hold, Option.some_bind] at h
    rw [getCell_setCell h y1 x1]
    simp

/-! ## The diffusion step -/

/-- The diffusion step is the sequence of neighbour updates listed by
`diffuseTargets`, applied in that order. -/
theorem diffuse_eq_applyUpdates (w h : ℤ) (g : Grid) (x y e : ℤ) :
    diffuse w h g x y e = applyUpdates e (diffuseTargets w h x y) g := by
  unfold diffuse diffuseTargets applyUpdates
  by_cases h1 : x + 1 < w <;> by_cases h2 : y + 1 < h <;> by_cases h3 : x - 1 > 0 <;>
    simp [h1, h2, h3, List.foldlM, Option.bind_eq_bind]

theorem update_wellFormed {w h : ℕ} {g : Grid} (hg : Grid.WellFormed w h g) {y x : ℤ} (e n : ℤ)
    (hy0 : 0 ≤ y) (hy : y < h) (hx0 : 0 ≤ x) (hx : x < w) :
    ∃ g1, update g y x e n = some g1 ∧ Grid.WellFormed w h g1 := by
  obtain ⟨hlen, hrows⟩ := hg
  obtain ⟨row, hrow⟩ := index_isSome g y hy0 (by omega)
  have hmem : row ∈ g := by
    unfold index at hrow
    rw [if_pos hy0] at hrow
    exact List.getElem?_mem hrow
  have hrl : row.length = w := hrows row hmem
  obtain ⟨old, hold⟩ := index_isSome row x hx0 (by omega)
  obtain ⟨row1, hrow1⟩ := store_isSome row x (pushError old e n) hx0 (by omega)
  obtain ⟨g1, hg1⟩ := store_isSome g y row1 hy0 (by omega)
  refine ⟨g1, ?_, ?_, ?_⟩
  · simp [update, getCell, setCell, hrow, hold, hrow1, hg1]
  · rw [length_store hg1, hlen]
  · intro r hr
    unfold store at hg1
    rw [if_pos ⟨hy0, by omega⟩] at hg1
    simp only [Option.some.injEq] at hg1
    subst hg1
    rcases List.mem_or_eq_of_mem_set hr with h1 | h1
    · exact hrows r h1
    · rw [h1, length_store hrow1, hrl]

theorem applyUpdates_wellFormed {w h : ℕ} (e : ℤ) (ts : List (ℤ × ℤ × ℤ)) :
    ∀ g : Grid, Grid.WellFormed w h g →
      (∀ t ∈ ts, 0 ≤ t.1 ∧ t.1 < h ∧ 0 ≤ t.2.1 ∧ t.2.1 < w) →
      ∃ g1, applyUpdates e ts g = some g1 ∧ Grid.WellFormed w h g1 := by
  induction ts with
  | nil =>
    intro g hg _
    exact ⟨g, rfl, hg⟩
  | cons t ts ih =>
    intro g hg ht
    obtain ⟨h1, h2, h3, h4⟩ := ht t (List.mem_cons_self _ _)
    obtain ⟨g1, hu, hg1⟩ := update_wellFormed hg e t.2.2 h1 h2 h3 h4
    obtain ⟨g2, ha, hg2⟩ := ih g1 hg1 (fun t1 ht1 => ht t1 (List.mem_cons_of_mem _ ht1))
    refine ⟨g2, ?_, hg2⟩
    unfold applyUpdates at ha ⊢
    rw [List.foldlM_cons, hu]
    exact ha

/-- Cells that are not among the targets keep their value through a sequence
of updates. -/
theorem getCell_applyUpdates (e : ℤ) (ts : List (ℤ × ℤ × ℤ)) (y1 x1 : ℤ)
    (hne : ∀ t ∈ ts, ¬ (y1 = t.1 ∧ x1 = t.2.1)) :
    ∀ g g1 : Grid, applyUpdates e ts g = some g1 → getCell g1 y1 x1 = getCell g y1 x1 := by
  induction ts with
  | nil =>
    intro g g1 h
    simp [applyUpdates] at h
    rw [h]
  | cons t ts ih =>
    intro g g1 h
    unfold applyUpdates at h
    rw [List.foldlM_cons] at h
    cases hu : update g t.1 t.2.1 e t.2.2 with
    | none => simp [hu] at h
    | some g2 =>
      simp only [hu, Option.some_bind, Option.bind_eq_bind] at h
      have h2 := ih (fun t1 ht1 => hne t1 (List.mem_cons_of_mem _ ht1)) g2 g1 h
      rw [h2, getCell_update hu y1 x1, if_neg (hne t (List.mem_cons_self _ _))]

/-- Membership in the list of targets, guard by guard. -/
theorem mem_diffuseTargets (w h x y : ℤ) (t : ℤ × ℤ × ℤ) :
    t ∈ diffuseTargets w h x y ↔
      (x + 1 < w ∧ t = (y, x + 1, 7)) ∨
      (y + 1 < h ∧ x - 1 > 0 ∧ t = (y + 1, x - 1, 3)) ∨
      (y + 1 < h ∧ t = (y + 1, x, 5)) ∨
      (y + 1 < h ∧ x + 1 < w ∧ t = (y + 1, x + 1, 1)) := by
  unfold diffuseTargets
  by_cases h1 : x + 1 < w <;> by_cases h2 : y + 1 < h <;> by_cases h3 : x - 1 > 0 <;>
    simp [h1, h2, h3]

/-- Every target of the diffusion step at `(x, y)` comes later in the row-major
scan than `(x, y)`. -/
theorem diffuseTargets_later (w h x y : ℤ) (t : ℤ × ℤ × ℤ) (ht : t ∈ diffuseTargets w h x y) :
    y < t.1 ∨ (t.1 = y ∧ x < t.2.1) := by
  rw [mem_diffuseTargets] at ht
  rcases ht with ⟨_, rfl⟩ | ⟨_, _, rfl⟩ | ⟨_, rfl⟩ | ⟨_, _, rfl⟩ <;> simp

/-- Every target of the diffusion step at a pixel of the grid lies in the grid. -/
theorem diffuseTargets_inBounds (w h x y : ℤ) (hx0 : 0 ≤ x) (hx : x < w) (hy0 : 0 ≤ y)
    (hy : y < h) (t : ℤ × ℤ × ℤ) (ht : t ∈ diffuseTargets w h x y) :
    0 ≤ t.1 ∧ t.1 < h ∧ 0 ≤ t.2.1 ∧ t.2.1 < w := by
  rw [mem_diffuseTargets] at ht
  rcases ht with ⟨_, rfl⟩ | ⟨_, _, rfl⟩ | ⟨_, rfl⟩ | ⟨_, _, rfl⟩ <;>
    simp only <;> omega

/-! ## Sample runs -/

theorem roundFloat_zero (p : ℕ) : roundFloat p 0 = 0 := by
  simp [roundFloat]

theorem findGray_black (a : ℕ) : findGray ⟨0, 0, 0, a⟩ = 0 := by
  simp [findGray, Color.RGBA, float64, roundFloat_zero, toUint8]

theorem dither_blackPixel :
    dither 0 blackPixelFrame oneBit 2 [none, none]
      = some ⟨blackPixelFrame, oneBit, [some ⟨⟨0, 0, 1, 1⟩, [0], oneBit⟩, none]⟩ := by
  simp [dither, buildGray, blackPixelFrame, scan, pixelStep, Frame.At, findGray_black, store,
    setCell, getCell, index, quantize, oneBit, diffuse, NewPaletted, Paletted.Set, paletteIndex,
    indexLoop, sqDiff, Color.RGBA, List.range_succ]

/-! ## The scan loop -/

theorem foldlM_flatMap {α β σ : Type} (f : σ → β → Option σ) (g : α → List β) (ys : List α) :
    ∀ s : σ, (ys.flatMap g).foldlM f s
      = ys.foldlM (fun (s1 : σ) (y : α) => (g y).foldlM f s1) s := by
  induction ys with
  | nil => intro s; rfl
  | cons y ys ih =>
    intro s
    rw [List.flatMap_cons, List.foldlM_append, List.foldlM_cons]
    cases h : (g y).foldlM f s with
    | none => rfl
    | some s1 => exact ih s1

/-- The nested loops of the scan visit the pixels in the order `scanOrder`. -/
theorem scan_eq_runSteps (w h : ℕ) (palette : List Color) (paletteSize : ℤ) (s : ScanState) :
    scan w h palette paletteSize s = runSteps w h palette paletteSize (scanOrder w h) s := by
  unfold scan runSteps scanOrder
  rw [foldlM_flatMap]
  congr 1
  funext s1 y
  rw [List.foldlM_map]

/-- The scan order is strictly increasing: row by row, and left to right
inside a row. -/
theorem scanOrder_pairwise (w h : ℕ) :
    (scanOrder w h).Pairwise fun p q => p.1 < q.1 ∨ (p.1 = q.1 ∧ p.2 < q.2) := by
  unfold scanOrder
  rw [List.pairwise_flatMap]
  constructor
  · intro y _
    rw [List.pairwise_map]
    exact (List.pairwise_lt_range w).imp fun hab => Or.inr ⟨rfl, hab⟩
  · refine (List.pairwise_lt_range h).imp ?_
    intro a b hab p hp q hq
    simp only [List.mem_map] at hp hq
    obtain ⟨_, _, rfl⟩ := hp
    obtain ⟨_, _, rfl⟩ := hq
    exact Or.inl hab

/-- The step at `(x, y)` changes no cell that the scan has reached already,
the cell `(x, y)` included. -/
theorem getCell_pixelStep {w h : ℕ} {palette : List Color} {paletteSize : ℤ} {s s1 : ScanState}
    {y x : ℕ} (hs : pixelStep w h palette paletteSize s y x = some s1) (y1 x1 : ℤ)
    (hnl : ¬ ((y : ℤ) < y1 ∨ (y1 = (y : ℤ) ∧ (x : ℤ) < x1))) :
    getCell s1.grayPix y1 x1 = getCell s.grayPix y1 x1 := by
  unfold pixelStep at hs
  cases h1 : getCell s.grayPix y x with
  | none => simp [h1] at hs
  | some oldPix =>
    simp only [h1, Option.some_bind] at hs
    cases h2 : palette[(quantize paletteSize oldPix).1]? with
    | none => simp [h2] at hs
    | some c =>
      simp only [h2, Option.some_bind] at hs
      cases h3 : diffuse w h s.grayPix x y ((oldPix : ℤ) - ((quantize paletteSize oldPix).2 : ℤ)) with
      | none => simp [h3] at hs
      | some g =>
        simp only [h3, Option.some_bind, Option.some.injEq] at hs
        subst hs
        rw [diffuse_eq_applyUpdates] at h3
        refine getCell_applyUpdates _ _ y1 x1 ?_ _ _ h3
        intro t ht hc
        have := diffuseTargets_later _ _ _ _ t ht
        apply hnl
        rcases this with h4 | ⟨h4, h5⟩
        · left; omega
        · right; omega

/-- Steps at pixels from which `(x, y)` is not later leave the cell `(x, y)`
as it is. -/
theorem getCell_runSteps (w h : ℕ) (palette : List Color) (paletteSize : ℤ) (y x : ℕ)
    (ps : List (ℕ × ℕ)) (hps : ∀ p ∈ ps, ¬ (p.1 < y ∨ (y = p.1 ∧ p.2 < x))) :
    ∀ s s1 : ScanState, runSteps w h palette paletteSize ps s = some s1 →
      getCell s1.grayPix y x = getCell s.grayPix y x := by
  induction ps with
  | nil =>
    intro s s1 hs
    simp [runSteps] at hs
    rw [hs]
  | cons p ps ih =>
    intro s s1 hs
    unfold runSteps at hs
    rw [List.foldlM_cons] at hs
    cases h1 : pixelStep w h palette paletteSize s p.1 p.2 with
    | none => simp [h1] at hs
    | some s2 =>
      simp only [h1, Option.some_bind, Option.bind_eq_bind] at hs
      have h2 := ih (fun q hq => hps q (List.mem_cons_of_mem _ hq)) s2 s1 hs
      have h3 := hps p (List.mem_cons_self _ _)
      rw [h2]
      apply getCell_pixelStep h1
      intro hc
      apply h3
      rcases hc with h4 | ⟨h4, h5⟩
      · left; omega
      · right; omega

/-! ## Palettes and the command line -/

theorem startup_three (prog inp out : String) (hin : HasSuffix inp ".gif" = true)
    (hout : HasSuffix out ".gif" = true) :
    startup [prog, inp, out] = Startup.proceed oneBit 2 := by
  simp [startup, hin, hout, oneBit]

theorem startup_four (prog inp out s : String) (hin : HasSuffix inp ".gif" = true)
    (hout : HasSuffix out ".gif" = true) :
    startup [prog, inp, out, s] =
      match Atoi s with
      | none => Startup.exit 1 "Invalid palette argument (expecting value 1-6)"
      | some n => Startup.proceed (switchPalette n) ((switchPalette n).length : ℤ) := by
  simp [startup, hin, hout]

theorem switchPalette_default (n : ℤ) (hn : n < 2 ∨ 6 < n) : switchPalette n = oneBit := by
  unfold switchPalette
  rw [if_neg (by omega), if_neg (by omega), if_neg (by omega), if_neg (by omega),
    if_neg (by omega)]

/-- Looking up an entry of a palette whose colours are found at their own
places stores the place of that entry, at the offset of the pixel. -/
theorem Set_stores_index (img : Paletted) (x y : ℤ) (k : ℕ) (c : Color)
    (hlen : img.Pix.length = img.Rect.Dx * img.Rect.Dy) (hin : img.Rect.contains x y)
    (hk : paletteIndex img.Palette c = k) (hk4 : k < 256) :
    (img.Set x y c).Pix[((y - img.Rect.MinY) * (img.Rect.Dx : ℤ)
      + (x - img.Rect.MinX)).toNat]? = some k := by
  obtain ⟨hx0, hx1, hy0, hy1⟩ := hin
  obtain ⟨a, ha⟩ : ∃ a : ℕ, y - img.Rect.MinY = (a : ℤ) :=
    ⟨(y - img.Rect.MinY).toNat, by rw [Int.toNat_of_nonneg]; omega⟩
  obtain ⟨b, hb⟩ : ∃ b : ℕ, x - img.Rect.MinX = (b : ℤ) :=
    ⟨(x - img.Rect.MinX).toNat, by rw [Int.toNat_of_nonneg]; omega⟩
  have ha1 : a < img.Rect.Dy := by omega
  have hb1 : b < img.Rect.Dx := by omega
  have hoff : ((y - img.Rect.MinY) * (img.Rect.Dx : ℤ) + (x - img.Rect.MinX)).toNat
      = a * img.Rect.Dx + b := by
    rw [ha, hb]
    have : ((a : ℤ) * (img.Rect.Dx : ℤ) + (b : ℤ)) = ((a * img.Rect.Dx + b : ℕ) : ℤ) := by
      push_cast
      ring
    rw [this, Int.toNat_natCast]
  have hlt : a * img.Rect.Dx + b < img.Pix.length := by
    rw [hlen]
    calc a * img.Rect.Dx + b < a * img.Rect.Dx + img.Rect.Dx := by omega
      _ = img.Rect.Dx * (a + 1) := by ring
      _ ≤ img.Rect.Dx * img.Rect.Dy := Nat.mul_le_mul_left _ ha1
  unfold Paletted.Set
  rw [if_pos ⟨hx0, hx1, hy0, hy1⟩]
  simp only
  rw [hoff, List.getElem?_set_self hlt, hk, Nat.mod_eq_of_lt hk4]

/-! ## The scan of an all-black 2x2 frame -/

theorem pushError_zero_neg31 (n : ℤ) (h1 : 1 ≤ n) (h7 : n ≤ 7) : pushError 0 (-31) n = 0 := by
  rw [pushError_eq 0 (-31) n (by decide) h1 h7]
  rw [if_neg (by omega), if_pos (by omega)]

theorem pixelStep_zero_grid (y x : ℕ) (hy : y < 2) (hx : x < 2) :
    pixelStep 2 2 oneBit 2 ⟨[[0, 0], [0, 0]], NewPaletted ⟨0, 0, 2, 2⟩ oneBit⟩ y x
      = some ⟨[[0, 0], [0, 0]], NewPaletted ⟨0, 0, 2, 2⟩ oneBit⟩ := by
  have e7 := pushError_zero_neg31 7 (by decide) (by decide)
  have e5 := pushError_zero_neg31 5 (by decide) (by decide)
  have e1 := pushError_zero_neg31 1 (by decide) (by decide)
  interval_cases y <;> interval_cases x <;>
    simp [pixelStep, getCell, index, quantize, oneBit, diffuse, update, setCell, store, e7, e5, e1,
      NewPaletted, Paletted.Set, paletteIndex, indexLoop, sqDiff, Color.RGBA]

theorem scan_zero_grid :
    scan 2 2 oneBit 2 ⟨[[0, 0], [0, 0]], NewPaletted ⟨0, 0, 2, 2⟩ oneBit⟩
      = some ⟨[[0, 0], [0, 0]], NewPaletted ⟨0, 0, 2, 2⟩ oneBit⟩ := by
  have h00 := pixelStep_zero_grid 0 0 (by decide) (by decide)
  have h01 := pixelStep_zero_grid 0 1 (by decide) (by decide)
  have h10 := pixelStep_zero_grid 1 0 (by decide) (by decide)
  have h11 := pixelStep_zero_grid 1 1 (by decide) (by decide)
  simp [scan, List.range_succ, h00, h01, h10, h11]

/-! ## Order of the neighbour updates -/

theorem setCell_isSome {g : Grid} {y x : ℤ} {old : ℕ} (h : getCell g y x = some old) (v : ℕ) :
    ∃ g1, setCell g y x v = some g1 := by
  unfold getCell at h
  cases hrow : index g y with
  | none => simp [hrow] at h
  | some row =>
    simp only [hrow, Option.some_bind] at h
    obtain ⟨hx0, hx⟩ := index_bounds h
    obtain ⟨hy0, hy⟩ := index_bounds hrow
    obtain ⟨row1, hrow1⟩ := store_isSome row x v hx0 hx
    obtain ⟨g1, hg1⟩ := store_isSome g y row1 hy0 hy
    exact ⟨g1, by simp [setCell, hrow, hrow1, hg1]⟩

/-- An update panics exactly when its cell does not exist. -/
theorem update_eq_none_iff (g : Grid) (y x e n : ℤ) :
    update g y x e n = none ↔ getCell g y x = none := by
  unfold update
  cases h : getCell g y x with
  | none => simp
  | some old =>
    obtain ⟨g1, hg1⟩ := setCell_isSome h (pushError old e n)
    simp [hg1]

/-- An update keeps the length of every row. -/
theorem update_rowLengths {g g1 : Grid} {y x e n : ℤ} (h : update g y x e n = some g1) :
    g1.map List.length = g.map List.length := by
  unfold update at h
  cases hold : getCell g y x with
  | none => simp [hold] at h
  | some old =>
    simp only [hold, Option.some_bind] at h
    unfold setCell at h
    cases hrow : index g y with
    | none => simp [hrow] at h
    | some row =>
      simp only [hrow, Option.some_bind] at h
      cases hst : store row x (pushError old e n) with
      | none => simp [hst] at h
      | some row1 =>
        simp only [hst, Option.some_bind] at h
        have hl := length_store hst
        obtain ⟨hy0, hy⟩ := index_bounds hrow
        unfold store at h
        rw [if_pos ⟨hy0, hy⟩] at h
        simp only [Option.some.injEq] at h
        subst h
        unfold index at hrow
        rw [if_pos hy0] at hrow
        apply List.ext_getElem?
        intro k
        rw [List.map_set, List.getElem?_set]
        split
        · rename_i hk
          subst hk
          simp [hrow, hl]
          omega
        · rfl

/-- Two grids with the same row lengths and the same cells are equal. -/
theorem grid_ext {g1 g2 : Grid} (hshape : g1.map List.length = g2.map List.length)
    (hcell : ∀ y x : ℤ, getCell g1 y x = getCell g2 y x) : g1 = g2 := by
  apply List.ext_getElem?
  intro i
  have hsi : (g1.map List.length)[i]? = (g2.map List.length)[i]? := by rw [hshape]
  rw [List.getElem?_map, List.getElem?_map] at hsi
  cases h1 : g1[i]? with
  | none =>
    cases h2 : g2[i]? with
    | none => rfl
    | some r2 => simp [h1, h2] at hsi
  | some r1 =>
    cases h2 : g2[i]? with
    | none => simp [h1, h2] at hsi
    | some r2 =>
      congr 1
      apply List.ext_getElem?
      intro j
      have := hcell (i : ℤ) (j : ℤ)
      simpa [getCell, index, h1, h2] using this

/-- Updates of two different cells can be exchanged. -/
theorem update_comm (g : Grid) (e : ℤ) (a b : ℤ × ℤ × ℤ) (hab : ¬ (a.1 = b.1 ∧ a.2.1 = b.2.1)) :
    (update g a.1 a.2.1 e a.2.2).bind (fun g1 => update g1 b.1 b.2.1 e b.2.2)
      = (update g b.1 b.2.1 e b.2.2).bind (fun g1 => update g1 a.1 a.2.1 e a.2.2) := by
  have hba : ¬ (b.1 = a.1 ∧ b.2.1 = a.2.1) := fun h => hab ⟨h.1.symm, h.2.symm⟩
  cases ha : update g a.1 a.2.1 e a.2.2 with
  | none =>
    have hca := (update_eq_none_iff g a.1 a.2.1 e a.2.2).mp ha
    cases hb : update g b.1 b.2.1 e b.2.2 with
    | none => simp only [Option.none_bind]
    | some gb =>
      simp only [Option.none_bind, Option.some_bind]
      symm
      rw [update_eq_none_iff, getCell_update hb, if_neg hab]
      exact hca
  | some ga =>
    have hga_b : getCell ga b.1 b.2.1 = getCell g b.1 b.2.1 := by
      rw [getCell_update ha, if_neg hba]
    cases hb : update g b.1 b.2.1 e b.2.2 with
    | none =>
      have hcb := (update_eq_none_iff g b.1 b.2.1 e b.2.2).mp hb
      simp only [Option.none_bind, Option.some_bind]
      rw [update_eq_none_iff, hga_b]
      exact hcb
    | some gb =>
      simp only [Option.some_bind]
      have hgb_a : getCell gb a.1 a.2.1 = getCell g a.1 a.2.1 := by
        rw [getCell_update hb, if_neg hab]
      cases hab2 : update ga b.1 b.2.1 e b.2.2 with
      | none =>
        have h1 := (update_eq_none_iff ga b.1 b.2.1 e b.2.2).mp hab2
        rw [hga_b] at h1
        rw [(update_eq_none_iff g b.1 b.2.1 e b.2.2).mpr h1] at hb
        exact absurd hb (by simp)
      | some gab =>
        cases hba2 : update gb a.1 a.2.1 e a.2.2 with
        | none =>
          have h1 := (update_eq_none_iff gb a.1 a.2.1 e a.2.2).mp hba2
          rw [hgb_a] at h1
          rw [(update_eq_none_iff g a.1 a.2.1 e a.2.2).mpr h1] at ha
          exact absurd ha (by simp)
        | some gba =>
          have hgrid : gab = gba := by
            apply grid_ext
            · rw [update_rowLengths hab2, update_rowLengths ha, update_rowLengths hba2,
                update_rowLengths hb]
            · intro y x
              rw [getCell_update hab2, hga_b, getCell_update ha, getCell_update hba2, hgb_a,
                getCell_update hb]
              by_cases h1 : y = b.1 ∧ x = b.2.1
              · have h2 : ¬ (y = a.1 ∧ x = a.2.1) := by
                  rintro ⟨h3, h4⟩
                  exact hab ⟨h3.symm.trans h1.1, h4.symm.trans h1.2⟩
                rw [if_pos h1, if_neg h2, if_pos h1]
              · rw [if_neg h1, if_neg h1]
          rw [hgrid]

theorem applyUpdates_cons (e : ℤ) (a : ℤ × ℤ × ℤ) (l : List (ℤ × ℤ × ℤ)) (g : Grid) :
    applyUpdates e (a :: l) g = (update g a.1 a.2.1 e a.2.2).bind (applyUpdates e l) := by
  unfold applyUpdates
  rw [List.foldlM_cons]
  rfl

theorem applyUpdates_cons_cons (e : ℤ) (a b : ℤ × ℤ × ℤ) (l : List (ℤ × ℤ × ℤ)) (g : Grid) :
    applyUpdates e (a :: b :: l) g
      = ((update g a.1 a.2.1 e a.2.2).bind (fun g1 => update g1 b.1 b.2.1 e b.2.2)).bind
          (applyUpdates e l) := by
  rw [applyUpdates_cons]
  cases h : update g a.1 a.2.1 e a.2.2 with
  | none => simp only [Option.none_bind]
  | some g1 =>
    simp only [Option.some_bind]
    rw [applyUpdates_cons]

/-- A sequence of updates of pairwise different cells gives the same result
in every order. -/
theorem applyUpdates_perm (e : ℤ) {ts1 ts2 : List (ℤ × ℤ × ℤ)} (hp : ts1.Perm ts2) :
    ts1.Pairwise (fun a b => ¬ (a.1 = b.1 ∧ a.2.1 = b.2.1)) →
      ∀ g : Grid, applyUpdates e ts1 g = applyUpdates e ts2 g := by
  induction hp with
  | nil => intro _ g; rfl
  | cons a _ ih =>
    intro hpw g
    rw [applyUpdates_cons, applyUpdates_cons]
    cases h : update g a.1 a.2.1 e a.2.2 with
    | none => simp only [Option.none_bind]
    | some g1 =>
      simp only [Option.some_bind]
      exact ih (List.pairwise_cons.mp hpw).2 g1
  | swap a b l =>
    intro hpw g
    have hba : ¬ (b.1 = a.1 ∧ b.2.1 = a.2.1) :=
      (List.pairwise_cons.mp hpw).1 a (List.mem_cons_self _ _)
    rw [applyUpdates_cons_cons, applyUpdates_cons_cons, update_comm g e b a hba]
  | trans h12 _ ih1 ih2 =>
    intro hpw g
    have hpw2 := h12.pairwise hpw (fun hab h => hab ⟨h.1.symm, h.2.symm⟩)
    rw [ih1 hpw g, ih2 hpw2 g]

/-- The cells of the targets of one diffusion step are pairwise different. -/
theorem diffuseTargets_pairwise (w h x y : ℤ) :
    (diffuseTargets w h x y).Pairwise (fun a b => ¬ (a.1 = b.1 ∧ a.2.1 = b.2.1)) := by
  unfold diffuseTargets
  by_cases h1 : x + 1 < w <;> by_cases h2 : y + 1 < h <;> by_cases h3 : x - 1 > 0 <;>
    simp only [h1, h2, h3, if_true, if_false, List.nil_append, List.append_nil,
      List.singleton_append, List.cons_append, List.pairwise_cons, List.Pairwise.nil,
      List.mem_cons, List.mem_singleton, List.not_mem_nil, and_true, forall_eq_or_imp,
      forall_eq, false_implies, implies_true] <;>
    (try omega)

/-! ## Completion of the scan and of the grid construction -/

/-- A loop whose body keeps an invariant, and does not panic where the
invariant holds, runs to completion and keeps the invariant. -/
theorem foldlM_invariant {σ α : Type} (f : σ → α → Option σ) (I : σ → Prop) (l : List α)
    (hstep : ∀ s, I s → ∀ a ∈ l, ∃ s1, f s a = some s1 ∧ I s1) :
    ∀ s, I s → ∃ s1, l.foldlM f s = some s1 ∧ I s1 := by
  induction l with
  | nil => intro s hs; exact ⟨s, rfl, hs⟩
  | cons a l ih =>
    intro s hs
    obtain ⟨s1, h1, hI1⟩ := hstep s hs a (List.mem_cons_self _ _)
    obtain ⟨s2, h2, hI2⟩ :=
      ih (fun s hs b hb => hstep s hs b (List.mem_cons_of_mem _ hb)) s1 hI1
    refine ⟨s2, ?_, hI2⟩
    rw [List.foldlM_cons, h1]
    exact h2

/-- What the body of a loop never changes is the same after the loop. -/
theorem foldlM_preserves {σ α β : Type} (f : σ → α → Option σ) (proj : σ → β) (l : List α)
    (hstep : ∀ s s1, ∀ a ∈ l, f s a = some s1 → proj s1 = proj s) :
    ∀ s s1, l.foldlM f s = some s1 → proj s1 = proj s := by
  induction l with
  | nil =>
    intro s s1 h
    simp only [List.foldlM_nil] at h
    cases h
    rfl
  | cons a l ih =>
    intro s s1 h
    rw [List.foldlM_cons] at h
    cases h1 : f s a with
    | none =>
      rw [h1] at h
      exact absurd h (by simp)
    | some s2 =>
      rw [h1] at h
      simp only [Option.bind_eq_bind, Option.some_bind] at h
      rw [ih (fun s s1 b hb => hstep s s1 b (List.mem_cons_of_mem _ hb)) s2 s1 h]
      exact hstep s s2 a (List.mem_cons_self _ _) h1

/-- A loop over `0, 1, ..., n` whose first pass panics, panics. -/
theorem foldlM_range_succ_none {σ : Type} (f : σ → ℕ → Option σ) (n : ℕ) (s : σ)
    (h : f s 0 = none) : (List.range (n + 1)).foldlM f s = none := by
  rw [List.range_succ_eq_map, List.foldlM_cons, h]
  rfl

theorem getCell_wellFormed {w h : ℕ} {g : Grid} (hg : Grid.WellFormed w h g) {y x : ℤ}
    (hy0 : 0 ≤ y) (hy : y < h) (hx0 : 0 ≤ x) (hx : x < w) : ∃ v, getCell g y x = some v := by
  obtain ⟨hlen, hrows⟩ := hg
  obtain ⟨row, hrow⟩ := index_isSome g y hy0 (by omega)
  have hmem : row ∈ g := by
    unfold index at hrow
    rw [if_pos hy0] at hrow
    exact List.getElem?_mem hrow
  have hrl : row.length = w := hrows row hmem
  obtain ⟨old, hold⟩ := index_isSome row x hx0 (by omega)
  exact ⟨old, by simp [getCell, hrow, hold]⟩

/-- On a well-formed grid, with a palette that has every index the quantizer
can choose, the body of the scan loop does not panic and leaves a well-formed
grid. -/
theorem pixelStep_wellFormed {w h : ℕ} {palette : List Color} {paletteSize : ℤ}
    (hpal : ∀ v, (quantize paletteSize v).1 < palette.length) {s : ScanState}
    (hg : Grid.WellFormed w h s.grayPix) {y x : ℕ} (hy : y < h) (hx : x < w) :
    ∃ s1, pixelStep w h palette paletteSize s y x = some s1 ∧
      Grid.WellFormed w h s1.grayPix := by
  obtain ⟨v, hv⟩ := getCell_wellFormed hg (y := (y : ℤ)) (x := (x : ℤ))
    (by omega) (by omega) (by omega) (by omega)
  obtain ⟨c, hc⟩ : ∃ c, palette[(quantize paletteSize v).1]? = some c :=
    ⟨_, List.getElem?_eq_getElem (hpal v)⟩
  obtain ⟨g1, hd, hg1⟩ := applyUpdates_wellFormed (w := w) (h := h)
    ((v : ℤ) - ((quantize paletteSize v).2 : ℤ)) (diffuseTargets w h x y) s.grayPix hg
    (diffuseTargets_inBounds w h x y (by omega) (by omega) (by omega) (by omega))
  rw [← diffuse_eq_applyUpdates] at hd
  refine ⟨⟨g1, s.newImg.Set x y c⟩, ?_, hg1⟩
  unfold pixelStep
  rw [hv]
  simp only [Option.some_bind]
  rw [hc]
  simp only [Option.some_bind]
  rw [hd]
  simp only [Option.some_bind]

/-- On a well-formed grid the scan loop runs to completion. -/
theorem scan_wellFormed {w h : ℕ} {palette : List Color} {paletteSize : ℤ}
    (hpal : ∀ v, (quantize paletteSize v).1 < palette.length) (s : ScanState)
    (hg : Grid.WellFormed w h s.grayPix) :
    ∃ s1, scan w h palette paletteSize s = some s1 ∧ Grid.WellFormed w h s1.grayPix := by
  unfold scan
  apply foldlM_invariant _ (fun s => Grid.WellFormed w h s.grayPix) _ _ s hg
  intro s1 hs1 y hy
  apply foldlM_invariant _ (fun s => Grid.WellFormed w h s.grayPix) _ _ s1 hs1
  intro s2 hs2 x hx
  exact pixelStep_wellFormed hpal hs2 (List.mem_range.mp hy) (List.mem_range.mp hx)

theorem quantize_index_lt (palette : List Color) (paletteSize : ℤ)
    (h2 : 2 ≤ palette.length) (h4 : paletteSize = 4 → 4 ≤ palette.length) (v : ℕ) :
    (quantize paletteSize v).1 < palette.length := by
  unfold quantize
  by_cases hp : paletteSize = 4
  · have := h4 hp
    rw [if_pos hp]
    split_ifs <;> simp only <;> omega
  · rw [if_neg hp]
    split_ifs <;> simp only <;> omega

theorem index_setCell_ne {g g1 : Grid} {y x : ℤ} {v : ℕ} (h : setCell g y x v = some g1)
    (j : ℤ) (hj : j ≠ y) : index g1 j = index g j := by
  unfold setCell at h
  cases hrow : index g y with
  | none => simp [hrow] at h
  | some row =>
    simp only [hrow, Option.some_bind] at h
    cases hst : store row x v with
    | none => simp [hst] at h
    | some row1 =>
      simp only [hst, Option.some_bind] at h
      rw [index_store h j, if_neg hj]

theorem store_wellFormed {w h : ℕ} {g g1 : Grid} (hg : Grid.WellFormed w h g) {i : ℤ}
    {row : List ℕ} (hrow : row.length = w) (hs : store g i row = some g1) :
    Grid.WellFormed w h g1 := by
  obtain ⟨hlen, hrows⟩ := hg
  refine ⟨by rw [length_store hs, hlen], ?_⟩
  intro r hr
  unfold store at hs
  split at hs
  · simp only [Option.some.injEq] at hs
    subst hs
    rcases List.mem_or_eq_of_mem_set hr with h1 | h1
    · exact hrows r h1
    · rw [h1, hrow]
  · exact absurd hs (by simp)

theorem setCell_wellFormed {w h : ℕ} {g : Grid} (hg : Grid.WellFormed w h g) {y x : ℤ} (v : ℕ)
    (hy0 : 0 ≤ y) (hy : y < h) (hx0 : 0 ≤ x) (hx : x < w) :
    ∃ g1, setCell g y x v = some g1 ∧ Grid.WellFormed w h g1 := by
  obtain ⟨old, hold⟩ := getCell_wellFormed hg hy0 hy hx0 hx
  obtain ⟨g1, hg1⟩ := setCell_isSome hold v
  refine ⟨g1, hg1, ?_⟩
  unfold setCell at hg1
  cases hrow : index g y with
  | none => simp [hrow] at hg1
  | some row =>
    simp only [hrow, Option.some_bind] at hg1
    cases hst : store row x v with
    | none => simp [hst] at hg1
    | some row1 =>
      simp only [hst, Option.some_bind] at hg1
      have hmem : row ∈ g := by
        unfold index at hrow
        rw [if_pos hy0] at hrow
        exact List.getElem?_mem hrow
      exact store_wellFormed hg (by rw [length_store hst, hg.2 row hmem]) hg1

/-- Filling a row that is `nil` panics at its first cell. -/
theorem setCell_empty_row {g : Grid} {y : ℤ} (hrow : index g y = some []) (v : ℕ) :
    setCell g y 0 v = none := by
  simp [setCell, hrow, store]

/-- The inner loop of the grid construction on a `nil` row panics when the
frame has a positive width. -/
theorem fillRow_empty_row (frame : Frame) (y : ℕ) (n : ℕ) {g : Grid}
    (hrow : index g (y : ℤ) = some []) :
    (List.range (n + 1)).foldlM
      (fun (g2 : Grid) (x : ℕ) => setCell g2 y x (findGray (frame.At x y))) g = none := by
  apply foldlM_range_succ_none
  exact setCell_empty_row hrow _

/-- The inner loop of the grid construction on a well-formed grid completes. -/
theorem fillRow_wellFormed (frame : Frame) {w h : ℕ} (y : ℕ) (hy : y < h) (g : Grid)
    (hg : Grid.WellFormed w h g) :
    ∃ g1, (List.range w).foldlM
        (fun (g2 : Grid) (x : ℕ) => setCell g2 y x (findGray (frame.At x y))) g = some g1 ∧
      Grid.WellFormed w h g1 := by
  apply foldlM_invariant _ (fun g => Grid.WellFormed w h g) _ _ g hg
  intro g2 hg2 x hx
  exact setCell_wellFormed hg2 _ (by omega) (by omega) (by omega)
    (by have := List.mem_range.mp hx; omega)

/-- The inner loop of the grid construction for row `y` leaves every other row
as it is. -/
theorem fillRow_index_ne (frame : Frame) (w : ℕ) (y : ℕ) (j : ℤ) (hj : j ≠ (y : ℤ))
    (g g1 : Grid)
    (h : (List.range w).foldlM
        (fun (g2 : Grid) (x : ℕ) => setCell g2 y x (findGray (frame.At x y))) g = some g1) :
    index g1 j = index g j := by
  refine foldlM_preserves _ (fun g => index g j) _ ?_ g g1 h
  intro s s1 x _ hs
  exact index_setCell_ne hs j hj

theorem index_replicate_nil (h : ℕ) (j : ℕ) (hj : j < h) :
    index (List.replicate h ([] : List ℕ)) (j : ℤ) = some [] := by
  unfold index
  rw [if_pos (by omega)]
  simp [hj]

theorem wellFormed_replicate_nil (h : ℕ) : Grid.WellFormed 0 h (List.replicate h []) := by
  refine ⟨by simp, ?_⟩
  intro row hrow
  rw [(List.mem_replicate.mp hrow).2]
  rfl

/-- A loop over `0, 1, ..., n + 1` whose second pass panics, panics. -/
theorem foldlM_range_succ_succ_none {σ : Type} (f : σ → ℕ → Option σ) (n : ℕ) (s : σ)
    (h : ∀ s1, f s 0 = some s1 → f s1 1 = none) :
    (List.range (n + 2)).foldlM f s = none := by
  rw [List.range_succ_eq_map, List.range_succ_eq_map, List.map_cons, List.foldlM_cons]
  cases h0 : f s 0 with
  | none => simp only [Option.bind_eq_bind, Option.none_bind]
  | some s1 =>
    simp only [Option.bind_eq_bind, Option.some_bind]
    rw [List.foldlM_cons]
    have h1 : f s1 (Nat.succ 0) = none := h s1 h0
    rw [h1]
    simp only [Option.bind_eq_bind, Option.none_bind]

/-- One pass of the row loop of the grid construction: row `i` is allocated,
then row `y` is filled. -/
theorem buildGray_eq (i : ℤ) (frame : Frame) :
    buildGray i frame =
      (List.range frame.Rect.Dy).foldlM
        (fun (g : Grid) (y : ℕ) =>
          (store g i (List.replicate frame.Rect.Dx 0)).bind fun g1 =>
            (List.range frame.Rect.Dx).foldlM
              (fun (g2 : Grid) (x : ℕ) => setCell g2 y x (findGray (frame.At x y))) g1)
        (List.replicate frame.Rect.Dy []) := by
  unfold buildGray
  simp only

/-- A pass of the row loop for a row `y` other than `i` that is `nil` panics
when the frame has a positive width. -/
theorem rowPass_none (i : ℤ) (frame : Frame) (m : ℕ) (hw : frame.Rect.Dx = m + 1) (y : ℕ)
    (hiy : (y : ℤ) ≠ i) (g : Grid) (hrow : index g (y : ℤ) = some []) :
    ((store g i (List.replicate frame.Rect.Dx 0)).bind fun g1 =>
      (List.range frame.Rect.Dx).foldlM
        (fun (g2 : Grid) (x : ℕ) => setCell g2 y x (findGray (frame.At x y))) g1) = none := by
  cases hs : store g i (List.replicate frame.Rect.Dx 0) with
  | none => simp only [Option.none_bind]
  | some g1 =>
    simp only [Option.some_bind]
    have h1 : index g1 (y : ℤ) = some [] := by
      rw [index_store hs, if_neg hiy, hrow]
    rw [hw]
    exact fillRow_empty_row frame y m h1

/-- A pass of the row loop changes no row other than `i` and `y`. -/
theorem rowPass_index_ne (i : ℤ) (frame : Frame) (y : ℕ) (j : ℤ) (hji : j ≠ i)
    (hjy : j ≠ (y : ℤ)) (g g2 : Grid)
    (h : ((store g i (List.replicate frame.Rect.Dx 0)).bind fun g1 =>
      (List.range frame.Rect.Dx).foldlM
        (fun (g2 : Grid) (x : ℕ) => setCell g2 y x (findGray (frame.At x y))) g1) = some g2) :
    index g2 j = index g j := by
  cases hs : store g i (List.replicate frame.Rect.Dx 0) with
  | none =>
    rw [hs] at h
    exact absurd h (by simp)
  | some g1 =>
    rw [hs] at h
    simp only [Option.some_bind] at h
    rw [fillRow_index_ne frame frame.Rect.Dx y j hjy g1 g2 h, index_store hs, if_neg hji]

/-- The grid construction of `dither` with slot index `i ≥ 0` completes, and
then gives a well-formed grid, exactly when the frame has no row, or has width
0 and `i` is below its height, or has one row and `i = 0`. -/
theorem buildGray_spec (i : ℤ) (hi : 0 ≤ i) (frame : Frame) :
    (frame.Rect.Dy = 0 ∨ (frame.Rect.Dx = 0 ∧ i < frame.Rect.Dy) ∨ (frame.Rect.Dy = 1 ∧ i = 0) →
        ∃ g, buildGray i frame = some g ∧ Grid.WellFormed frame.Rect.Dx frame.Rect.Dy g) ∧
      (¬ (frame.Rect.Dy = 0 ∨ (frame.Rect.Dx = 0 ∧ i < frame.Rect.Dy) ∨ (frame.Rect.Dy = 1 ∧ i = 0)) →
        buildGray i frame = none) := by
  rw [buildGray_eq]
  rcases Nat.eq_zero_or_pos frame.Rect.Dy with h0 | hpos
  · -- no row
    constructor
    · intro _
      rw [h0]
      exact ⟨[], rfl, rfl, by simp⟩
    · intro hc
      exact absurd (Or.inl h0) hc
  obtain ⟨n, hn⟩ : ∃ n, frame.Rect.Dy = n + 1 := ⟨frame.Rect.Dy - 1, by omega⟩
  rcases Nat.eq_zero_or_pos frame.Rect.Dx with w0 | wpos
  · -- width 0
    by_cases hih : i < frame.Rect.Dy
    · constructor
      · intro _
        rw [w0]
        apply foldlM_invariant _ (fun g => Grid.WellFormed 0 frame.Rect.Dy g) _ _ _
          (wellFormed_replicate_nil frame.Rect.Dy)
        intro g hg y _
        obtain ⟨g1, hg1⟩ := store_isSome g i (List.replicate 0 0) hi (by rw [hg.1]; exact hih)
        refine ⟨g1, ?_, store_wellFormed hg (by simp) hg1⟩
        rw [hg1]
        rfl
      · intro hc
        exact absurd (Or.inr (Or.inl ⟨w0, hih⟩)) hc
    · constructor
      · intro hc
        rcases hc with h1 | ⟨_, h1⟩ | ⟨h1, h2⟩
        · omega
        · exact absurd h1 hih
        · omega
      · intro _
        rw [hn]
        apply foldlM_range_succ_none
        have : store (List.replicate (n + 1) ([] : List ℕ)) i (List.replicate frame.Rect.Dx 0) = none := by
          unfold store
          rw [if_neg]
          rw [List.length_replicate]
          omega
        rw [this]
        rfl
  · -- positive width
    obtain ⟨m, hm⟩ : ∃ m, frame.Rect.Dx = m + 1 := ⟨frame.Rect.Dx - 1, by omega⟩
    by_cases hi0 : i = 0
    · subst hi0
      rcases Nat.eq_zero_or_pos n with n0 | npos
      · -- one row
        subst n0
        constructor
        · intro _
          rw [hn]
          have hst : store (List.replicate (0 + 1) ([] : List ℕ)) 0 (List.replicate frame.Rect.Dx 0)
              = some [List.replicate frame.Rect.Dx 0] := by
            simp [store]
          have hwf : Grid.WellFormed frame.Rect.Dx (0 + 1) [List.replicate frame.Rect.Dx 0] := by
            refine ⟨rfl, ?_⟩
            intro row hrow
            rw [List.mem_singleton.mp hrow, List.length_replicate]
          obtain ⟨g1, hg1, hwf1⟩ := fillRow_wellFormed frame 0 (by omega) _ hwf
          refine ⟨g1, ?_, hwf1⟩
          simp only [List.range_succ, List.range_zero, List.nil_append, List.foldlM_cons,
            List.foldlM_nil, hst, Option.some_bind, Option.bind_eq_bind]
          change (List.range frame.Rect.Dx).foldlM _ _ >>= pure = some g1
          rw [bind_pure]
          exact hg1
        · intro hc
          exact absurd (Or.inr (Or.inr ⟨hn, rfl⟩)) hc
      · -- at least two rows
        obtain ⟨k, hk⟩ : ∃ k, n = k + 1 := ⟨n - 1, by omega⟩
        constructor
        · intro hc
          rcases hc with h1 | ⟨h1, _⟩ | ⟨h1, _⟩ <;> omega
        · intro _
          rw [hn, hk]
          apply foldlM_range_succ_succ_none
          intro g1 hg1
          have hrow1 : index g1 ((1 : ℕ) : ℤ) = some [] := by
            rw [rowPass_index_ne 0 frame 0 ((1 : ℕ) : ℤ) (by decide) (by decide) _ g1 hg1]
            exact index_replicate_nil (k + 1 + 1) 1 (by omega)
          exact rowPass_none 0 frame m hm 1 (by decide) g1 hrow1
    · -- slot index other than 0
      constructor
      · intro hc
        rcases hc with h1 | ⟨h1, _⟩ | ⟨_, h1⟩
        · omega
        · omega
        · exact absurd h1 hi0
      · intro _
        rw [hn]
        apply foldlM_range_succ_none
        apply rowPass_none i frame m hm 0 (by intro h; exact hi0 h.symm)
        exact index_replicate_nil (n + 1) 0 (by omega)

/-! ## Monotonicity of floating-point rounding -/

theorem roundHalfEven_le_floor_add_one (q : ℚ) : roundHalfEven q ≤ ⌊q⌋ + 1 := by
  unfold roundHalfEven
  simp only
  split_ifs <;> omega

/-- Rounding to the nearest integer is monotone. -/
theorem roundHalfEven_mono {a b : ℚ} (hab : a ≤ b) : roundHalfEven a ≤ roundHalfEven b := by
  have hfl : ⌊a⌋ ≤ ⌊b⌋ := Int.floor_mono hab
  rcases lt_or_eq_of_le hfl with hlt | heq
  · calc roundHalfEven a ≤ ⌊a⌋ + 1 := roundHalfEven_le_floor_add_one a
      _ ≤ ⌊b⌋ := by omega
      _ ≤ roundHalfEven b := floor_le_roundHalfEven b
  · have hfr : a - (⌊a⌋ : ℚ) ≤ b - (⌊b⌋ : ℚ) := by
      rw [heq]
      linarith
    unfold roundHalfEven
    simp only
    by_cases h1 : a - (⌊a⌋ : ℚ) < 1 / 2
    · rw [if_pos h1]
      split_ifs <;> omega
    · rw [if_neg h1]
      have h1b : ¬ b - (⌊b⌋ : ℚ) < 1 / 2 := by
        intro h
        exact h1 (lt_of_le_of_lt hfr h)
      rw [if_neg h1b]
      by_cases h2 : 1 / 2 < a - (⌊a⌋ : ℚ)
      · have h2b : 1 / 2 < b - (⌊b⌋ : ℚ) := lt_of_lt_of_le h2 hfr
        rw [if_pos h2, if_pos h2b]
        omega
      · rw [if_neg h2]
        by_cases h2b : 1 / 2 < b - (⌊b⌋ : ℚ)
        · rw [if_pos h2b]
          split_ifs <;> omega
        · rw [if_neg h2b, heq]

theorem roundFloat_nonneg (p : ℕ) {q : ℚ} (hq : 0 ≤ q) : 0 ≤ roundFloat p q := by
  unfold roundFloat
  split_ifs with h0
  · exact le_refl 0
  · simp only
    apply mul_nonneg _ (two_zpow_pos _).le
    have h1 : (0 : ℚ) ≤ q / (2 : ℚ) ^ (Int.log 2 |q| - ((p : ℤ) - 1)) :=
      div_nonneg hq (two_zpow_pos _).le
    have h2 : (0 : ℤ) ≤ ⌊q / (2 : ℚ) ^ (Int.log 2 |q| - ((p : ℤ) - 1))⌋ := Int.floor_nonneg.mpr h1
    have h3 := floor_le_roundHalfEven (q / (2 : ℚ) ^ (Int.log 2 |q| - ((p : ℤ) - 1)))
    exact_mod_cast le_trans h2 h3

/-- Rounding a positive number does not pass the next power of two. -/
theorem roundFloat_le_next_pow (p : ℕ) {q : ℚ} (hq : 0 < q) :
    roundFloat p q ≤ (2 : ℚ) ^ (Int.log 2 q + 1) := by
  unfold roundFloat
  rw [if_neg hq.ne']
  simp only
  rw [abs_of_pos hq]
  set L : ℤ := Int.log 2 q with hL
  set e : ℤ := L - ((p : ℤ) - 1) with he
  have h1 : q < ((2 : ℕ) : ℚ) ^ (L + 1) := Int.lt_zpow_succ_log_self (by norm_num) q
  have h1' : q < (2 : ℚ) ^ (L + 1) := by exact_mod_cast h1
  have hpow : (((2 ^ p : ℕ) : ℤ) : ℚ) * (2 : ℚ) ^ e = (2 : ℚ) ^ (L + 1) := by
    push_cast
    rw [← zpow_natCast, ← zpow_add₀ (by norm_num : (2 : ℚ) ≠ 0)]
    congr 1
    rw [he]
    ring
  have hx : q / (2 : ℚ) ^ e ≤ (((2 ^ p : ℕ) : ℤ) : ℚ) := by
    rw [div_le_iff₀ (two_zpow_pos e), hpow]
    exact h1'.le
  have hcl : roundHalfEven (q / (2 : ℚ) ^ e) ≤ ((2 ^ p : ℕ) : ℤ) :=
    le_trans (roundHalfEven_le_ceil _) (Int.ceil_le.mpr hx)
  have hcl' : (roundHalfEven (q / (2 : ℚ) ^ e) : ℚ) ≤ (((2 ^ p : ℕ) : ℤ) : ℚ) := by
    exact_mod_cast hcl
  calc (roundHalfEven (q / (2 : ℚ) ^ e) : ℚ) * (2 : ℚ) ^ e
      ≤ (((2 ^ p : ℕ) : ℤ) : ℚ) * (2 : ℚ) ^ e :=
        mul_le_mul_of_nonneg_right hcl' (two_zpow_pos e).le
    _ = (2 : ℚ) ^ (L + 1) := hpow

/-- Floating-point rounding is monotone on the non-negative numbers. -/
theorem roundFloat_mono (p : ℕ) (hp : 1 ≤ p) {x y : ℚ} (hx : 0 ≤ x) (hxy : x ≤ y) :
    roundFloat p x ≤ roundFloat p y := by
  rcases eq_or_lt_of_le hx with h0 | hpos
  · rw [← h0]
    have : roundFloat p 0 = 0 := by simp [roundFloat]
    rw [this]
    exact roundFloat_nonneg p (le_trans hx hxy)
  have hypos : 0 < y := lt_of_lt_of_le hpos hxy
  have hlog : Int.log 2 x ≤ Int.log 2 y := Int.log_mono_right hpos hxy
  rcases lt_or_eq_of_le hlog with hlt | heq
  · have h1 := roundFloat_le_next_pow p hpos
    have h2 : (2 : ℚ) ^ (Int.log 2 y) ≤ y := by
      have := Int.zpow_log_le_self (R := ℚ) (b := 2) (by norm_num) hypos
      exact_mod_cast this
    have h3 := le_roundFloat p hp (Int.log 2 y) y h2
    have h4 : (2 : ℚ) ^ (Int.log 2 x + 1) ≤ (2 : ℚ) ^ (Int.log 2 y) :=
      zpow_le_zpow_right₀ (by norm_num) (by omega)
    exact le_trans h1 (le_trans h4 h3)
  · unfold roundFloat
    rw [if_neg hpos.ne', if_neg hypos.ne']
    simp only
    rw [abs_of_pos hpos, abs_of_pos hypos, heq]
    apply mul_le_mul_of_nonneg_right _ (two_zpow_pos _).le
    have : x / (2 : ℚ) ^ (Int.log 2 y - ((p : ℤ) - 1))
        ≤ y / (2 : ℚ) ^ (Int.log 2 y - ((p : ℤ) - 1)) :=
      div_le_div_of_nonneg_right hxy (two_zpow_pos _).le
    exact_mod_cast roundHalfEven_mono this

/-- A non-negative number between two floating-point numbers rounds to a
number between them. -/
theorem roundFloat_between (p : ℕ) (hp : 1 ≤ p) {a q b : ℚ} (ha0 : 0 ≤ a)
    (ha : roundFloat p a = a) (hb : roundFloat p b = b) (haq : a ≤ q) (hqb : q ≤ b) :
    a ≤ roundFloat p q ∧ roundFloat p q ≤ b := by
  constructor
  · rw [← ha]
    exact roundFloat_mono p hp ha0 haq
  · rw [← hb]
    exact roundFloat_mono p hp (le_trans ha0 haq) hqb

/-! ## The grayscale conversion -/

theorem channel_shift (R : ℕ) (hR : R ≤ 255) : (R ||| (R <<< 8)) >>> 8 = R := by
  apply Nat.eq_of_testBit_eq
  intro j
  rw [Nat.testBit_shiftRight, Nat.testBit_or, Nat.testBit_shiftLeft]
  have h8 : R < 2 ^ (8 + j) :=
    lt_of_lt_of_le (by omega : R < 2 ^ 8) (Nat.pow_le_pow_right (by norm_num) (by omega))
  rw [Nat.testBit_lt_two_pow h8]
  simp

theorem findGray_eq_grayFloat (c : Color) :
    findGray c = toUint8 (grayFloat ((c.R ||| (c.R <<< 8)) >>> 8)
      ((c.G ||| (c.G <<< 8)) >>> 8) ((c.B ||| (c.B <<< 8)) >>> 8)) := by
  simp only [findGray, Color.RGBA, grayFloat]

theorem findGray_eq (R G B A : ℕ) (hR : R ≤ 255) (hG : G ≤ 255) (hB : B ≤ 255) :
    findGray ⟨R, G, B, A⟩ = toUint8 (grayFloat R G B) := by
  rw [findGray_eq_grayFloat]
  simp only [channel_shift R hR, channel_shift G hG, channel_shift B hB]

theorem float64_natCast (n : ℕ) (hn : n ≤ 255) : float64 (n : ℚ) = (n : ℚ) := by
  have := roundFloat_intCast 53 (n : ℤ) (by rw [abs_of_nonneg (by omega)]; norm_num; omega)
  simpa [float64] using this

/-- A multiple of `1/1024` with a numerator below `2^53` is a `float64`. -/
theorem float64_dyadic (k : ℕ) (hk : k < 2 ^ 53) :
    float64 ((k : ℚ) / 1024) = (k : ℚ) / 1024 := by
  have h := roundFloat_exact 53 (k : ℤ) (-10) (by rw [abs_of_nonneg (by omega)]; exact_mod_cast hk)
  have e : ((k : ℤ) : ℚ) * (2 : ℚ) ^ (-10 : ℤ) = (k : ℚ) / 1024 := by
    rw [zpow_neg, div_eq_mul_inv]
    norm_num
  rw [e] at h
  exact h

theorem float64_zero : float64 0 = 0 := by
  simp [float64, roundFloat]

theorem float64_nonneg {q : ℚ} (hq : 0 ≤ q) : 0 ≤ float64 q := roundFloat_nonneg 53 hq

theorem float64_mono {x y : ℚ} (hx : 0 ≤ x) (hxy : x ≤ y) : float64 x ≤ float64 y :=
  roundFloat_mono 53 (by norm_num) hx hxy

/-- Rounding to `float64` stays between two multiples of `1/1024`. -/
theorem float64_between {q : ℚ} (a b : ℕ) (ha : a < 2 ^ 53) (hb : b < 2 ^ 53)
    (haq : (a : ℚ) / 1024 ≤ q) (hqb : q ≤ (b : ℚ) / 1024) :
    (a : ℚ) / 1024 ≤ float64 q ∧ float64 q ≤ (b : ℚ) / 1024 :=
  roundFloat_between 53 (by norm_num) (by positivity) (float64_dyadic a ha) (float64_dyadic b hb)
    haq hqb

/-- One product of `findGray`: a weight between `lo/1024` and `hi/1024` times
an 8-bit channel value. -/
theorem float64_weight_mul (wt : ℚ) (lo hi n : ℕ) (hlo : (lo : ℚ) / 1024 ≤ wt)
    (hhi : wt ≤ (hi : ℚ) / 1024) (hhi4 : hi ≤ 1024) (hn : n ≤ 255) :
    ((lo * n : ℕ) : ℚ) / 1024 ≤ float64 (float64 wt * float64 (n : ℚ)) ∧
      float64 (float64 wt * float64 (n : ℚ)) ≤ ((hi * n : ℕ) : ℚ) / 1024 := by
  have hlohi : lo ≤ hi := by
    have h0 : (lo : ℚ) / 1024 ≤ (hi : ℚ) / 1024 := le_trans hlo hhi
    have h1 : (lo : ℚ) ≤ (hi : ℚ) := by linarith
    exact_mod_cast h1
  obtain ⟨h1, h2⟩ := float64_between lo hi
    (lt_of_le_of_lt (le_trans hlohi hhi4) (by norm_num)) (lt_of_le_of_lt hhi4 (by norm_num))
    hlo hhi
  rw [float64_natCast n hn]
  have hn0 : (0 : ℚ) ≤ (n : ℚ) := by positivity
  have hbig : hi * n < 2 ^ 53 := by
    calc hi * n ≤ 1024 * 255 := Nat.mul_le_mul hhi4 hn
      _ < 2 ^ 53 := by norm_num
  have hsmall : lo * n < 2 ^ 53 := lt_of_le_of_lt (Nat.mul_le_mul_right n hlohi) hbig
  apply float64_between (lo * n) (hi * n) hsmall hbig
  · push_cast
    calc (lo : ℚ) * n / 1024 = (lo : ℚ) / 1024 * n := by ring
      _ ≤ float64 wt * n := mul_le_mul_of_nonneg_right h1 hn0
  · push_cast
    calc float64 wt * n ≤ (hi : ℚ) / 1024 * n := mul_le_mul_of_nonneg_right h2 hn0
      _ = (hi : ℚ) * n / 1024 := by ring

/-- Bounds of the `float64` luminance through multiples of `1/1024`. -/
theorem grayFloat_bounds (R G B : ℕ) (hR : R ≤ 255) (hG : G ≤ 255) (hB : B ≤ 255) :
    ((306 * R + 601 * G + 116 * B : ℕ) : ℚ) / 1024 ≤ grayFloat R G B ∧
      grayFloat R G B ≤ ((307 * R + 602 * G + 117 * B : ℕ) : ℚ) / 1024 := by
  obtain ⟨r1, r2⟩ := float64_weight_mul (299 / 1000) 306 307 R (by norm_num) (by norm_num)
    (by norm_num) hR
  obtain ⟨g1, g2⟩ := float64_weight_mul (587 / 1000) 601 602 G (by norm_num) (by norm_num)
    (by norm_num) hG
  obtain ⟨b1, b2⟩ := float64_weight_mul (114 / 1000) 116 117 B (by norm_num) (by norm_num)
    (by norm_num) hB
  unfold grayFloat
  have hs1 : 306 * R + 601 * G < 2 ^ 53 := by
    have : 306 * R + 601 * G ≤ 306 * 255 + 601 * 255 := by omega
    exact lt_of_le_of_lt this (by norm_num)
  have hs2 : 307 * R + 602 * G < 2 ^ 53 := by
    have : 307 * R + 602 * G ≤ 307 * 255 + 602 * 255 := by omega
    exact lt_of_le_of_lt this (by norm_num)
  obtain ⟨s1, s2⟩ := float64_between (q := float64 (float64 (299 / 1000) * float64 (R : ℚ))
      + float64 (float64 (587 / 1000) * float64 (G : ℚ))) (306 * R + 601 * G) (307 * R + 602 * G)
    hs1 hs2
    (by push_cast at r1 g1 ⊢; linarith) (by push_cast at r2 g2 ⊢; linarith)
  have ht1 : 306 * R + 601 * G + 116 * B < 2 ^ 53 := by
    have : 306 * R + 601 * G + 116 * B ≤ 306 * 255 + 601 * 255 + 116 * 255 := by omega
    exact lt_of_le_of_lt this (by norm_num)
  have ht2 : 307 * R + 602 * G + 117 * B < 2 ^ 53 := by
    have : 307 * R + 602 * G + 117 * B ≤ 307 * 255 + 602 * 255 + 117 * 255 := by omega
    exact lt_of_le_of_lt this (by norm_num)
  exact float64_between _ _ ht1 ht2
    (by push_cast at s1 b1 ⊢; linarith) (by push_cast at s2 b2 ⊢; linarith)

theorem toUint8_eq_floor {q : ℚ} (h0 : 0 ≤ q) (h1 : q < 256) :
    (toUint8 q : ℤ) = ⌊q⌋ ∧ toUint8 q ≤ 255 := by
  have hf0 : 0 ≤ ⌊q⌋ := Int.floor_nonneg.mpr h0
  have hf1 : ⌊q⌋ < 256 := Int.floor_lt.mpr (by exact_mod_cast h1)
  unfold toUint8
  rw [if_pos h0]
  constructor <;> omega

theorem toUint8_mono {p q : ℚ} (h0 : 0 ≤ p) (hpq : p ≤ q) (h1 : q < 256) :
    toUint8 p ≤ toUint8 q := by
  have hp := (toUint8_eq_floor h0 (lt_of_le_of_lt hpq h1)).1
  have hq := (toUint8_eq_floor (le_trans h0 hpq) h1).1
  have := Int.floor_mono hpq
  omega

theorem grayFloat_mono {R G B R1 G1 B1 : ℕ} (hR : R ≤ R1) (hG : G ≤ G1) (hB : B ≤ B1) :
    grayFloat R G B ≤ grayFloat R1 G1 B1 := by
  have wnn : ∀ q : ℚ, 0 ≤ q → 0 ≤ float64 q := fun q hq => float64_nonneg hq
  have term : ∀ (wt : ℚ) (n n1 : ℕ), 0 ≤ wt → n ≤ n1 →
      0 ≤ float64 (float64 wt * float64 (n : ℚ)) ∧
        float64 (float64 wt * float64 (n : ℚ)) ≤ float64 (float64 wt * float64 (n1 : ℚ)) := by
    intro wt n n1 hwt hn
    have h1 : 0 ≤ float64 wt := wnn wt hwt
    have h2 : 0 ≤ float64 (n : ℚ) := wnn _ (by positivity)
    have h3 : float64 (n : ℚ) ≤ float64 (n1 : ℚ) :=
      float64_mono (by positivity) (by exact_mod_cast hn)
    exact ⟨wnn _ (mul_nonneg h1 h2),
      float64_mono (mul_nonneg h1 h2) (mul_le_mul_of_nonneg_left h3 h1)⟩
  obtain ⟨r0, r1⟩ := term (299 / 1000) R R1 (by norm_num) hR
  obtain ⟨g0, g1⟩ := term (587 / 1000) G G1 (by norm_num) hG
  obtain ⟨b0, b1⟩ := term (114 / 1000) B B1 (by norm_num) hB
  unfold grayFloat
  have s0 : 0 ≤ float64 (float64 (float64 (299 / 1000) * float64 (R : ℚ))
      + float64 (float64 (587 / 1000) * float64 (G : ℚ))) := wnn _ (add_nonneg r0 g0)
  have s1 : float64 (float64 (float64 (299 / 1000) * float64 (R : ℚ))
      + float64 (float64 (587 / 1000) * float64 (G : ℚ)))
      ≤ float64 (float64 (float64 (299 / 1000) * float64 (R1 : ℚ))
      + float64 (float64 (587 / 1000) * float64 (G1 : ℚ))) :=
    float64_mono (add_nonneg r0 g0) (add_le_add r1 g1)
  exact float64_mono (add_nonneg s0 b0) (add_le_add s1 b1)

/-- The `float64` luminance of 8-bit channel values lies in `[0, 256)`. -/
theorem grayFloat_range (R G B : ℕ) (hR : R ≤ 255) (hG : G ≤ 255) (hB : B ≤ 255) :
    0 ≤ grayFloat R G B ∧ grayFloat R G B < 256 := by
  obtain ⟨h1, h2⟩ := grayFloat_bounds R G B hR hG hB
  constructor
  · exact le_trans (by positivity) h1
  · have h3 : ((307 * R + 602 * G + 117 * B : ℕ) : ℚ) ≤ ((261630 : ℕ) : ℚ) := by
      exact_mod_cast (by omega : 307 * R + 602 * G + 117 * B ≤ 261630)
    have h4 : ((307 * R + 602 * G + 117 * B : ℕ) : ℚ) / 1024 < 256 := by
      rw [div_lt_iff₀ (by norm_num)]
      push_cast at h3 ⊢
      linarith
    exact lt_of_le_of_lt h2 h4

theorem findGrayExact_eq (R G B A : ℕ) (hR : R ≤ 255) (hG : G ≤ 255) (hB : B ≤ 255) :
    findGrayExact ⟨R, G, B, A⟩ = (299 * R + 587 * G + 114 * B) / 1000 := by
  have hq : (299 / 1000 : ℚ) * ((R : ℕ) : ℚ) + (587 / 1000 : ℚ) * ((G : ℕ) : ℚ)
      + (114 / 1000 : ℚ) * ((B : ℕ) : ℚ)
      = (((299 * R + 587 * G + 114 * B : ℕ) : ℤ) : ℚ) / ((1000 : ℕ) : ℚ) := by
    push_cast
    ring
  simp only [findGrayExact, Color.RGBA, channel_shift R hR, channel_shift G hG,
    channel_shift B hB]
  rw [hq]
  unfold toUint8
  rw [if_pos (by positivity), Rat.floor_intCast_div_natCast]
  omega

/-- The opaque green `(0, 171, 0)` has grayscale value 100. -/
theorem findGray_green : findGray ⟨0, 171, 0, 255⟩ = 100 := by
  rw [findGray_eq 0 171 0 255 (by decide) (by decide) (by decide)]
  obtain ⟨h1, h2⟩ := grayFloat_bounds 0 171 0 (by decide) (by decide) (by decide)
  have h3 : (100 : ℚ) ≤ grayFloat 0 171 0 := le_trans (by norm_num) h1
  have h4 : grayFloat 0 171 0 < 101 := lt_of_le_of_lt h2 (by norm_num)
  obtain ⟨h5, _⟩ := toUint8_eq_floor (le_trans (by norm_num) h3) (lt_trans h4 (by norm_num))
  have h6 : ⌊grayFloat 0 171 0⌋ = 100 := by
    rw [Int.floor_eq_iff]
    constructor
    · exact_mod_cast h3
    · have : ((100 : ℤ) : ℚ) + 1 = 101 := by norm_num
      rw [this]
      exact h4
  omega

/-! ## A frame of one pixel -/

/-- Each defined palette has 2 or 4 entries, pairwise distinct, and the lookup
of an entry finds its own index. -/
theorem definedPalettes_index :
    ∀ p ∈ definedPalettes,
      (p.length = 2 ∨ p.length = 4) ∧ p.Nodup ∧
        ∀ k < p.length, ∀ c, p[k]? = some c → paletteIndex p c = k := by
  decide

theorem single_pixel_buildGray (frame : Frame) (hx : frame.Rect.Dx = 1)
    (hy : frame.Rect.Dy = 1) :
    buildGray 0 frame = some [[findGray (frame.At 0 0)]] := by
  unfold buildGray
  rw [hx, hy]
  simp [List.range_succ, store, setCell, index]

theorem single_pixel_diffuse (v : ℕ) (e : ℤ) : diffuse 1 1 [[v]] 0 0 e = some [[v]] := by
  simp [diffuse]

/-- The step of the scan on a grid of one cell: the cell is read, the colour
of the quantizer's index is passed to `Set`, and the grid stays as it is. -/
theorem single_pixel_step (palette : List Color) (paletteSize : ℤ) (v : ℕ) (img : Paletted)
    (c : Color) (hc : palette[(quantize paletteSize v).1]? = some c) :
    pixelStep 1 1 palette paletteSize ⟨[[v]], img⟩ 0 0 = some ⟨[[v]], img.Set 0 0 c⟩ := by
  unfold pixelStep
  simp [getCell, index, diffuse]
  rw [hc]
  simp only [Option.some_bind]

theorem single_pixel_scan (palette : List Color) (paletteSize : ℤ) (v : ℕ) (img : Paletted)
    (c : Color) (hc : palette[(quantize paletteSize v).1]? = some c) :
    scan 1 1 palette paletteSize ⟨[[v]], img⟩ = some ⟨[[v]], img.Set 0 0 c⟩ := by
  unfold scan
  simp only [List.range_succ, List.range_zero, List.nil_append, List.foldlM_cons,
    List.foldlM_nil]
  have h := single_pixel_step palette paletteSize v img c hc
  simp only [Nat.cast_zero] at h ⊢
  rw [h]
  rfl

/-- On a frame of one pixel `dither` with slot index 0 completes, with the
image that `Set(0, 0, palette[k])` gives, `k` being the quantizer's index of
the value of `frame.At(0, 0)`. -/
theorem single_pixel_dither (frame : Frame) (hx : frame.Rect.Dx = 1) (hy : frame.Rect.Dy = 1)
    (palette : List Color) (paletteSize : ℤ) (imgArr : List (Option Paletted))
    (himg : 0 < imgArr.length) (c : Color)
    (hc : palette[(quantize paletteSize (findGray (frame.At 0 0))).1]? = some c) :
    dither 0 frame palette paletteSize imgArr
      = some ⟨frame, palette,
          imgArr.set 0 (some ((NewPaletted frame.Rect palette).Set 0 0 c))⟩ := by
  unfold dither
  simp only [single_pixel_buildGray frame hx hy, Option.some_bind, hx, hy,
    single_pixel_scan palette paletteSize _ _ c hc]
  simp [store, himg]

/-- At the origin `Set(0, 0, c)` writes the index of `c` into the one pixel. -/
theorem Set_origin_pixel (palette : List Color) (c : Color) (k : ℕ)
    (hk : paletteIndex palette c = k) (hk4 : k < 256) :
    (NewPaletted ⟨0, 0, 1, 1⟩ palette).Set 0 0 c = ⟨⟨0, 0, 1, 1⟩, [k], palette⟩ := by
  simp [NewPaletted, Paletted.Set, Rectangle.contains, hk, Nat.mod_eq_of_lt hk4]

/-- Away from the origin `Set(0, 0, c)` writes nothing. -/
theorem Set_offset_pixel (r : Rectangle) (hr : ¬ r.contains 0 0) (palette : List Color)
    (c : Color) : (NewPaletted r palette).Set 0 0 c = NewPaletted r palette := by
  have hr1 : ¬ (NewPaletted r palette).Rect.contains 0 0 := hr
  unfold Paletted.Set
  rw [if_neg hr1]

/-- White has a grayscale value of at least 254. -/
theorem findGray_white : 254 ≤ findGray ⟨255, 255, 255, 255⟩ := by
  rw [findGray_eq 255 255 255 255 (by decide) (by decide) (by decide)]
  obtain ⟨h1, h2⟩ := grayFloat_bounds 255 255 255 (by decide) (by decide) (by decide)
  obtain ⟨r0, r1⟩ := grayFloat_range 255 255 255 (by decide) (by decide) (by decide)
  obtain ⟨h5, _⟩ := toUint8_eq_floor r0 r1
  have h3 : ((254 : ℤ) : ℚ) ≤ grayFloat 255 255 255 := le_trans (by norm_num) h1
  have h6 : (254 : ℤ) ≤ ⌊grayFloat 255 255 255⌋ := Int.le_floor.mpr h3
  omega

/-- On a frame of one pixel with bounds at the origin, with a defined palette
and its length as palette size, the output pixel is the quantizer's index of
the pixel's grayscale value. -/
theorem single_pixel_dither_at_origin (frame : Frame) (hr : frame.Rect = ⟨0, 0, 1, 1⟩)
    (palette : List Color) (hp : palette ∈ definedPalettes) (imgArr : List (Option Paletted))
    (himg : 0 < imgArr.length) :
    dither 0 frame palette (palette.length : ℤ) imgArr
      = some ⟨frame, palette, imgArr.set 0 (some ⟨⟨0, 0, 1, 1⟩,
          [(quantize (palette.length : ℤ) (findGray (frame.At 0 0))).1], palette⟩)⟩ := by
  obtain ⟨hlen, _, hidx⟩ := definedPalettes_index palette hp
  have hk : (quantize (palette.length : ℤ) (findGray (frame.At 0 0))).1 < palette.length :=
    quantize_index_lt palette _ (by omega) (by intro h; omega) _
  obtain ⟨c, hc⟩ :
      ∃ c, palette[(quantize (palette.length : ℤ) (findGray (frame.At 0 0))).1]? = some c :=
    ⟨_, List.getElem?_eq_getElem hk⟩
  rw [single_pixel_dither frame (by rw [hr]) (by rw [hr]) palette _ imgArr himg c hc, hr,
    Set_origin_pixel palette c _ (hidx _ hk c hc) (by omega)]

/-! ## The frame ditherer: claims about `dither` -/

/-- C1: `dither` does not succeed on every well-formed grid. On a frame one
pixel wide and two pixels high, with slot index 0, a palette of two entries
and palette size 2, the run panics while it builds the grayscale grid: the row
loop allocates row `i` instead of row `y`, so row 1 is still `nil` when
`grayPix[1][0]` is assigned. -/
theorem dither_panics_on_two_rows :
    blackColumnFrame.WellFormed ∧ blackColumnFrame.Rect.Dx = 1 ∧ blackColumnFrame.Rect.Dy = 2 ∧
      buildGray 0 blackColumnFrame = none ∧
      dither 0 blackColumnFrame oneBit 2 [none] = none := by
  refine ⟨?_, rfl, rfl, ?_, ?_⟩
  · unfold Frame.WellFormed blackColumnFrame
    decide
  · decide
  · decide

/-- C2: at `x = 1` the diffusion step leaves the southwest cell `(0, y+1)` as
it is, although that cell lies in the grid: on the 3-by-2 grid with rows
`255 255 255` and `100 100 100`, at pixel `(1, 0)` with error 32, the cell
`(0, 1)` keeps the value 100 where `pushError(100, 32, 3)` is 106; the east,
south and southeast cells are updated. -/
theorem diffuse_skips_southwest_at_column_one :
    diffuse 3 2 [[255, 255, 255], [100, 100, 100]] 1 0 32
        = some [[255, 255, pushError 255 32 7],
                [100, pushError 100 32 5, pushError 100 32 1]] ∧
      pushError 100 32 3 = 106 ∧
      (255 : ℤ) - ((quantize 2 255).2 : ℤ) = 32 := by
  refine ⟨rfl, ?_, by decide⟩
  rw [pushError_eq 100 32 3 (by decide) (by decide) (by decide)]
  decide

/-- C3: with palette size 4 the quantization branch selects index 0 and value
31 below 64, index 1 and value 95 from 64 to 127, index 2 and value 159 from
128 to 191, and index 3 and value 223 from 192 on; the splits are at 64, 128
and 192. -/
theorem quantize_four (v : ℕ) :
    (v < 64 → quantize 4 v = (0, 31)) ∧
      (64 ≤ v → v < 128 → quantize 4 v = (1, 95)) ∧
      (128 ≤ v → v < 192 → quantize 4 v = (2, 159)) ∧
      (192 ≤ v → quantize 4 v = (3, 223)) ∧
      (quantize 4 63).1 = 0 ∧ (quantize 4 64).1 = 1 ∧ (quantize 4 127).1 = 1 ∧
      (quantize 4 128).1 = 2 ∧ (quantize 4 191).1 = 2 ∧ (quantize 4 192).1 = 3 := by
  refine ⟨?_, ?_, ?_, ?_, by decide, by decide, by decide, by decide, by decide, by decide⟩
  · intro h
    simp [quantize, h]
  · intro h1 h2
    have : ¬ v < 64 := by omega
    simp [quantize, this, h2]
  · intro h1 h2
    have h3 : ¬ v < 64 := by omega
    have h4 : ¬ v < 128 := by omega
    simp [quantize, h3, h4, h2]
  · intro h1
    have h3 : ¬ v < 64 := by omega
    have h4 : ¬ v < 128 := by omega
    have h5 : ¬ v < 192 := by omega
    simp [quantize, h3, h4, h5]

/-- Witness of C3 at the grayscale value 100. -/
theorem quantize_four_witness : 64 ≤ 100 ∧ 100 < 128 ∧ quantize 4 100 = (1, 95) :=
  ⟨by decide, by decide, (quantize_four 100).2.1 (by decide) (by decide)⟩

/-- C4: with a palette size other than 4 the quantization branch selects index
0 and value 31 below 128, and index 1 and value 223 from 128 on; 127 gives
index 0, 128 gives index 1, and no index above 1 is selected. -/
theorem quantize_other (paletteSize : ℤ) (hp : paletteSize ≠ 4) (v : ℕ) :
    (v < 128 → quantize paletteSize v = (0, 31)) ∧
      (128 ≤ v → quantize paletteSize v = (1, 223)) ∧
      (quantize paletteSize 127).1 = 0 ∧ (quantize paletteSize 128).1 = 1 ∧
      (quantize paletteSize v).1 ≤ 1 := by
  refine ⟨?_, ?_, ?_, ?_, ?_⟩
  · intro h
    simp [quantize, hp, h]
  · intro h
    have : ¬ v < 128 := by omega
    simp [quantize, hp, this]
  · simp [quantize, hp]
  · simp [quantize, hp]
  · by_cases h : v < 128 <;> simp [quantize, hp, h]

/-- Witness of C4 at palette size 2 and the grayscale value 200. -/
theorem quantize_other_witness :
    (2 : ℤ) ≠ 4 ∧ 128 ≤ 200 ∧ quantize 2 200 = (1, 223) :=
  ⟨by decide, by decide, (quantize_other 2 (by decide) 200).2.1 (by decide)⟩

/-- C5: for an 8-bit `grayVal`, any integer `quantError` and a numerator among
1, 3, 5, 7, with `s = grayVal + quantError * numerator / 16` taken exactly,
`pushError` is 255 when `s > 255`, 0 when `s < 0`, and the integer part of `s`
otherwise; so the result always lies between 0 and 255. -/
theorem pushError_clamped_truncation (grayVal : ℕ) (quantError numerator : ℤ)
    (hg : grayVal ≤ 255)
    (hn : numerator = 1 ∨ numerator = 3 ∨ numerator = 5 ∨ numerator = 7) :
    (255 < (grayVal : ℚ) + (quantError : ℚ) * (numerator : ℚ) / 16 →
        pushError grayVal quantError numerator = 255) ∧
      ((grayVal : ℚ) + (quantError : ℚ) * (numerator : ℚ) / 16 < 0 →
        pushError grayVal quantError numerator = 0) ∧
      (0 ≤ (grayVal : ℚ) + (quantError : ℚ) * (numerator : ℚ) / 16 →
        (grayVal : ℚ) + (quantError : ℚ) * (numerator : ℚ) / 16 ≤ 255 →
        (pushError grayVal quantError numerator : ℤ)
          = ⌊(grayVal : ℚ) + (quantError : ℚ) * (numerator : ℚ) / 16⌋) ∧
      pushError grayVal quantError numerator ≤ 255 := by
  have hn1 : 1 ≤ numerator := by omega
  have hn7 : numerator ≤ 7 := by omega
  have heq := pushError_eq grayVal quantError numerator hg hn1 hn7
  set m : ℤ := 16 * (grayVal : ℤ) + quantError * numerator with hm
  have hs : (grayVal : ℚ) + (quantError : ℚ) * (numerator : ℚ) / 16 = (m : ℚ) / 16 := by
    rw [hm]
    push_cast
    ring
  rw [hs]
  have c1 : (255 < (m : ℚ) / 16) ↔ 16 * 255 < m := by
    rw [lt_div_iff₀ (by norm_num : (0 : ℚ) < 16)]
    constructor
    · intro h
      have : ((4080 : ℤ) : ℚ) < (m : ℚ) := by push_cast; linarith
      have := Int.cast_lt.mp this
      omega
    · intro h
      have : ((4080 : ℤ) : ℚ) < (m : ℚ) := Int.cast_lt.mpr (by omega)
      push_cast at this
      linarith
  have c2 : ((m : ℚ) / 16 < 0) ↔ m < 0 := by
    rw [div_lt_iff₀ (by norm_num : (0 : ℚ) < 16)]
    simp
  have hfl : ⌊(m : ℚ) / 16⌋ = m / 16 := by
    have := Rat.floor_intCast_div_natCast m 16
    simpa using this
  refine ⟨?_, ?_, ?_, ?_⟩
  · intro h
    rw [heq, if_pos (c1.mp h)]
  · intro h
    have h2 := c2.mp h
    rw [heq, if_neg (by omega), if_pos h2]
  · intro h0 h255
    have h1 : ¬ 16 * 255 < m := fun h => absurd (c1.mpr h) (not_lt.mpr h255)
    have h2 : ¬ m < 0 := fun h => absurd (c2.mpr h) (not_lt.mpr h0)
    rw [heq, if_neg h1, if_neg h2, hfl]
    omega
  · rw [heq]
    split_ifs <;> omega

/-- Witness of C5: `pushError(100, 32, 3)`, where `s = 106`. -/
theorem pushError_clamped_truncation_witness :
    (100 : ℕ) ≤ 255 ∧
      (pushError 100 32 3 : ℤ) = ⌊((100 : ℕ) : ℚ) + ((32 : ℤ) : ℚ) * ((3 : ℤ) : ℚ) / 16⌋ ∧
      pushError 100 32 3 ≤ 255 :=
  ⟨by decide,
    (pushError_clamped_truncation 100 32 3 (by decide) (by decide)).2.2.1
      (by norm_num) (by norm_num),
    (pushError_clamped_truncation 100 32 3 (by decide) (by decide)).2.2.2⟩

/-- C6: the diffusion step at `(x, y)` is the sequence of updates of its
targets, and every target `(x', y')` has `y' > y`, or `y' = y` and `x' > x`.
Hence, in the row-major scan, from the moment the scan is about to read and
quantize `(x, y)` the cell `(x, y)` is never changed again: after any further
part of the scan it holds the value that was quantized. -/
theorem diffusion_targets_not_yet_visited (w h : ℕ) (palette : List Color) (paletteSize : ℤ) :
    (∀ (g : Grid) (x y e : ℤ),
        diffuse w h g x y e = applyUpdates e (diffuseTargets w h x y) g) ∧
      (∀ (x y : ℤ) (t : ℤ × ℤ × ℤ), t ∈ diffuseTargets w h x y →
        y < t.1 ∨ (t.1 = y ∧ x < t.2.1)) ∧
      (∀ s : ScanState,
        scan w h palette paletteSize s
          = runSteps w h palette paletteSize (scanOrder w h) s) ∧
      (∀ (before after rest : List (ℕ × ℕ)) (x y : ℕ) (s s1 s2 : ScanState),
        scanOrder w h = before ++ (y, x) :: (after ++ rest) →
        runSteps w h palette paletteSize before s = some s1 →
        runSteps w h palette paletteSize ((y, x) :: after) s1 = some s2 →
        getCell s2.grayPix y x = getCell s1.grayPix y x) := by
  refine ⟨fun g x y e => diffuse_eq_applyUpdates w h g x y e,
    fun x y t ht => diffuseTargets_later w h x y t ht,
    fun s => scan_eq_runSteps w h palette paletteSize s, ?_⟩
  intro before after rest x y s s1 s2 hord _ h2
  have hpw := scanOrder_pairwise w h
  rw [hord, List.pairwise_append] at hpw
  have hcons := List.pairwise_cons.mp hpw.2.1
  refine getCell_runSteps w h palette paletteSize y x _ ?_ s1 s2 h2
  intro p hp hc
  rcases List.mem_cons.mp hp with rfl | hp1
  · rcases hc with h3 | ⟨_, h3⟩ <;> exact absurd h3 (lt_irrefl _)
  · have := hcons.1 p (List.mem_append_left _ hp1)
    simp only at this
    omega

/-- Witness of C6: the first pixel of a frame two pixels wide and one high. -/
theorem diffusion_targets_not_yet_visited_witness :
    getCell ([[0, pushError 0 (-31) 7]] : Grid) 0 0 = getCell ([[0, 0]] : Grid) 0 0 :=
  (diffusion_targets_not_yet_visited 2 1 oneBit 2).2.2.2 [] [] [(0, 1)] 0 0
    ⟨[[0, 0]], NewPaletted ⟨0, 0, 2, 1⟩ oneBit⟩ ⟨[[0, 0]], NewPaletted ⟨0, 0, 2, 1⟩ oneBit⟩
    ⟨[[0, pushError 0 (-31) 7]], NewPaletted ⟨0, 0, 2, 1⟩ oneBit⟩ rfl rfl rfl

/-- C7: the outcome of `dither` depends on the slot index: on the same 1x1
frame, palette and palette size, with a result array of two slots, the run
with index 0 completes and stores an output frame, and the run with index 1
panics (it allocates row 1 of a grid that has one row). -/
theorem dither_outcome_depends_on_index :
    dither 0 blackPixelFrame oneBit 2 [none, none]
        = some ⟨blackPixelFrame, oneBit, [some ⟨⟨0, 0, 1, 1⟩, [0], oneBit⟩, none]⟩ ∧
      dither 1 blackPixelFrame oneBit 2 [none, none] = none :=
  ⟨dither_blackPixel, by decide⟩

/-- C8: the coordinator does not assemble an animation for every input: with
two well-formed 1x1 frames the task of frame 1 panics, in whichever order the
two tasks run, and with one well-formed frame of two rows the only task
panics. -/
theorem coordinate_panics :
    blackPixelFrame.WellFormed ∧ blackColumnFrame.WellFormed ∧
      coordinate [0, 1] [blackPixelFrame, blackPixelFrame] oneBit = none ∧
      coordinate [1, 0] [blackPixelFrame, blackPixelFrame] oneBit = none ∧
      coordinate [0] [blackColumnFrame] oneBit = none := by
  refine ⟨?_, ?_, ?_, by decide, by decide⟩
  · unfold Frame.WellFormed blackPixelFrame
    decide
  · unfold Frame.WellFormed blackColumnFrame
    decide
  · have h := dither_blackPixel
    have h1 : dither 1 blackPixelFrame oneBit 2 [some ⟨⟨0, 0, 1, 1⟩, [0], oneBit⟩, none] = none := by
      decide
    have h0 : (oneBit.length : ℤ) = 2 := by decide
    simp only [coordinate, runTasks, h0, List.length_cons, List.length_nil, List.replicate,
      List.foldlM_cons, List.foldlM_nil]
    simp [h, h1]

/-- C9: a run of `dither` with index `i` that returns leaves the source frame
and the palette as they were, keeps the length of `imgArr`, stores an output
frame in slot `i` and leaves every slot `j ≠ i` as it was. (A run that panics
stores nothing: the assignment to `imgArr[i]` is its last statement.) -/
theorem dither_writes_only_its_slot (i : ℤ) (frame : Frame) (palette : List Color)
    (paletteSize : ℤ) (imgArr : List (Option Paletted)) (m : Shared)
    (hrun : dither i frame palette paletteSize imgArr = some m) :
    m.frame = frame ∧ m.palette = palette ∧ m.imgArr.length = imgArr.length ∧
      (∃ img, index m.imgArr i = some (some img)) ∧
      ∀ j : ℤ, j ≠ i → index m.imgArr j = index imgArr j := by
  unfold dither at hrun
  cases h1 : buildGray i frame with
  | none => simp [h1] at hrun
  | some g =>
    simp only [h1, Option.some_bind] at hrun
    cases h2 : scan frame.Rect.Dx frame.Rect.Dy palette paletteSize ⟨g, NewPaletted frame.Rect palette⟩ with
    | none => simp [h2] at hrun
    | some s =>
      simp only [h2, Option.some_bind] at hrun
      cases h3 : store imgArr i (some s.newImg) with
      | none => simp [h3] at hrun
      | some arr =>
        simp only [h3, Option.some_bind, Option.some.injEq] at hrun
        subst hrun
        refine ⟨rfl, rfl, length_store h3, ⟨s.newImg, ?_⟩, ?_⟩
        · rw [index_store h3 i, if_pos rfl]
        · intro j hj
          rw [index_store h3 j, if_neg hj]

/-- Witness of C9: the run with index 0 on a 1x1 frame and two slots. -/
theorem dither_writes_only_its_slot_witness :
    index [some (⟨⟨0, 0, 1, 1⟩, [0], oneBit⟩ : Paletted), none] 1 = index [none, none] 1 :=
  (dither_writes_only_its_slot 0 blackPixelFrame oneBit 2 [none, none]
    ⟨blackPixelFrame, oneBit, [some ⟨⟨0, 0, 1, 1⟩, [0], oneBit⟩, none]⟩ dither_blackPixel).2.2.2.2 1
    (by decide)

/-- C10: for a pixel `(x, y)` of a `w`-by-`h` grid every cell that the
diffusion step writes lies in the grid, so on a well-formed grid the step does
not panic. At the rightmost column no east or southeast cell is a target, at
the bottom row no south, southwest or southeast cell, and at the leftmost
column no southwest cell. -/
theorem diffusion_stays_in_bounds (w h : ℕ) (x y : ℤ) (hx0 : 0 ≤ x) (hx : x < w)
    (hy0 : 0 ≤ y) (hy : y < h) :
    (∀ (g : Grid) (e : ℤ),
        diffuse w h g x y e = applyUpdates e (diffuseTargets w h x y) g) ∧
      (∀ t ∈ diffuseTargets w h x y, 0 ≤ t.2.1 ∧ t.2.1 < w ∧ 0 ≤ t.1 ∧ t.1 < h) ∧
      (∀ (g : Grid) (e : ℤ), Grid.WellFormed w h g →
        ∃ g1, diffuse w h g x y e = some g1 ∧ Grid.WellFormed w h g1) ∧
      (x = w - 1 → ∀ n : ℤ, (y, x + 1, n) ∉ diffuseTargets w h x y ∧
        (y + 1, x + 1, n) ∉ diffuseTargets w h x y) ∧
      (y = h - 1 → ∀ n : ℤ, (y + 1, x, n) ∉ diffuseTargets w h x y ∧
        (y + 1, x - 1, n) ∉ diffuseTargets w h x y ∧
        (y + 1, x + 1, n) ∉ diffuseTargets w h x y) ∧
      (x = 0 → ∀ n : ℤ, (y + 1, x - 1, n) ∉ diffuseTargets w h x y) := by
  have hb := diffuseTargets_inBounds w h x y hx0 hx hy0 hy
  refine ⟨fun g e => diffuse_eq_applyUpdates w h g x y e, ?_, ?_, ?_, ?_, ?_⟩
  · intro t ht
    obtain ⟨h1, h2, h3, h4⟩ := hb t ht
    exact ⟨h3, h4, h1, h2⟩
  · intro g e hg
    rw [diffuse_eq_applyUpdates]
    exact applyUpdates_wellFormed e _ g hg hb
  · intro hxw n
    constructor
    · intro ht
      have := hb _ ht
      simp only at this
      omega
    · intro ht
      have := hb _ ht
      simp only at this
      omega
  · intro hyh n
    refine ⟨?_, ?_, ?_⟩ <;>
    · intro ht
      have := hb _ ht
      simp only at this
      omega
  · intro hx n ht
    have := hb _ ht
    simp only at this
    omega

/-- Witness of C10: the east target `(1, 0)` of the top left pixel of a 3-by-2
grid. -/
theorem diffusion_stays_in_bounds_witness :
    (0 : ℤ) ≤ 1 ∧ (1 : ℤ) < ((3 : ℕ) : ℤ) ∧ (0 : ℤ) ≤ 0 ∧ (0 : ℤ) < ((2 : ℕ) : ℤ) :=
  (diffusion_stays_in_bounds 3 2 0 0 (by decide) (by decide) (by decide) (by decide)).2.1
    (0, 1, 7) (by decide)

/-! ## Saturation and error bounds -/

/-- C11 (as stated, refuted): with numerator 1 an error of +1000 moves the
value 0 to 62, not to 255, and an error of -1000 moves 255 to 192, not to 0. -/
theorem pushError_thousand_not_saturated :
    pushError 0 1000 1 = 62 ∧ pushError 0 1000 1 ≠ 255 ∧
      pushError 255 (-1000) 1 = 192 ∧ pushError 255 (-1000) 1 ≠ 0 := by
  have h1 : pushError 0 1000 1 = 62 := by
    rw [pushError_eq 0 1000 1 (by decide) (by decide) (by decide)]
    decide
  have h2 : pushError 255 (-1000) 1 = 192 := by
    rw [pushError_eq 255 (-1000) 1 (by decide) (by decide) (by decide)]
    decide
  refine ⟨h1, ?_, h2, ?_⟩
  · rw [h1]; decide
  · rw [h2]; decide

/-- C11 (amended): for an 8-bit `grayVal` an error of +1000 or -1000 always
gives a result between 0 and 255; with the numerators 5 and 7 the result is
255, respectively 0, for every `grayVal`; with numerator 3 it is 255 exactly
from `grayVal` 68 on, respectively 0 exactly up to 188; with numerator 1 it is
255 exactly from 193 on, respectively 0 exactly up to 63. -/
theorem pushError_thousand (grayVal : ℕ) (hg : grayVal ≤ 255) :
    (∀ n : ℤ, n = 5 ∨ n = 7 →
        pushError grayVal 1000 n = 255 ∧ pushError grayVal (-1000) n = 0) ∧
      (pushError grayVal 1000 3 = 255 ↔ 68 ≤ grayVal) ∧
      (pushError grayVal (-1000) 3 = 0 ↔ grayVal ≤ 188) ∧
      (pushError grayVal 1000 1 = 255 ↔ 193 ≤ grayVal) ∧
      (pushError grayVal (-1000) 1 = 0 ↔ grayVal ≤ 63) ∧
      (∀ n : ℤ, n = 1 ∨ n = 3 ∨ n = 5 ∨ n = 7 →
        pushError grayVal 1000 n ≤ 255 ∧ pushError grayVal (-1000) n ≤ 255) := by
  refine ⟨?_, ?_, ?_, ?_, ?_, ?_⟩
  · intro n hn
    have h1 : 1 ≤ n := by omega
    have h7 : n ≤ 7 := by omega
    rw [pushError_eq grayVal 1000 n hg h1 h7, pushError_eq grayVal (-1000) n hg h1 h7]
    constructor
    · rw [if_pos (by omega)]
    · rw [if_neg (by omega), if_pos (by omega)]
  · rw [pushError_eq grayVal 1000 3 hg (by decide) (by decide)]
    split_ifs <;> omega
  · rw [pushError_eq grayVal (-1000) 3 hg (by decide) (by decide)]
    split_ifs <;> omega
  · rw [pushError_eq grayVal 1000 1 hg (by decide) (by decide)]
    split_ifs <;> omega
  · rw [pushError_eq grayVal (-1000) 1 hg (by decide) (by decide)]
    split_ifs <;> omega
  · intro n hn
    have h1 : 1 ≤ n := by omega
    have h7 : n ≤ 7 := by omega
    rw [pushError_eq grayVal 1000 n hg h1 h7, pushError_eq grayVal (-1000) n hg h1 h7]
    constructor <;> split_ifs <;> omega

/-- Witness of C11 (amended) at `grayVal = 100`. -/
theorem pushError_thousand_witness :
    (100 : ℕ) ≤ 255 ∧ pushError 100 1000 7 = 255 ∧ pushError 100 (-1000) 7 = 0 :=
  ⟨by decide, (pushError_thousand 100 (by decide)).1 7 (by decide)⟩

/-- C20: the quantization error `oldPix - newPix` of an 8-bit value lies in
-31..32 with palette size 4, and otherwise in -31..96 when index 0 is chosen
and in -95..32 when index 1 is chosen; so its magnitude is at most 96, its
share `error * numerator / 16` is a multiple of 1/16 of magnitude at most 42,
and one diffusion update changes a neighbour by at most 42. -/
theorem quantError_bounds (paletteSize : ℤ) (v : ℕ) (hv : v ≤ 255) :
    (paletteSize = 4 →
        -31 ≤ (v : ℤ) - ((quantize paletteSize v).2 : ℤ) ∧
          (v : ℤ) - ((quantize paletteSize v).2 : ℤ) ≤ 32) ∧
      (paletteSize ≠ 4 → (quantize paletteSize v).1 = 0 →
        -31 ≤ (v : ℤ) - ((quantize paletteSize v).2 : ℤ) ∧
          (v : ℤ) - ((quantize paletteSize v).2 : ℤ) ≤ 96) ∧
      (paletteSize ≠ 4 → (quantize paletteSize v).1 = 1 →
        -95 ≤ (v : ℤ) - ((quantize paletteSize v).2 : ℤ) ∧
          (v : ℤ) - ((quantize paletteSize v).2 : ℤ) ≤ 32) ∧
      |(v : ℤ) - ((quantize paletteSize v).2 : ℤ)| ≤ 96 ∧
      (∀ n : ℤ, n = 1 ∨ n = 3 ∨ n = 5 ∨ n = 7 →
        (∃ k : ℤ, (((v : ℤ) - ((quantize paletteSize v).2 : ℤ) : ℤ) : ℚ) * (n : ℚ) / 16
            = (k : ℚ) * (1 / 16) ∧ |k| ≤ 42 * 16) ∧
        ∀ grayVal : ℕ, grayVal ≤ 255 →
          |(pushError grayVal ((v : ℤ) - ((quantize paletteSize v).2 : ℤ)) n : ℤ)
              - (grayVal : ℤ)| ≤ 42) := by
  have hq : ∀ ps : ℤ, -95 ≤ (v : ℤ) - ((quantize ps v).2 : ℤ) ∧
      (v : ℤ) - ((quantize ps v).2 : ℤ) ≤ 96 := by
    intro ps
    unfold quantize
    split_ifs <;> (simp only; omega)
  refine ⟨?_, ?_, ?_, ?_, ?_⟩
  · intro h4
    subst h4
    unfold quantize
    split_ifs <;> (simp only; omega)
  · intro h4 h0
    unfold quantize at h0 ⊢
    rw [if_neg h4] at h0 ⊢
    split_ifs at h0 ⊢
    simp only at h0 ⊢
    omega
  · intro h4 h1
    unfold quantize at h1 ⊢
    rw [if_neg h4] at h1 ⊢
    split_ifs at h1 ⊢
    simp only at h1 ⊢
    omega
  · rw [abs_le]
    have := hq paletteSize
    omega
  · intro n hn
    obtain ⟨hlo, hhi⟩ := hq paletteSize
    set e : ℤ := (v : ℤ) - ((quantize paletteSize v).2 : ℤ) with he
    have hen : -672 ≤ e * n ∧ e * n ≤ 672 := by
      rcases hn with rfl | rfl | rfl | rfl <;> omega
    constructor
    · refine ⟨e * n, ?_, ?_⟩
      · push_cast
        ring
      · rw [abs_le]
        omega
    · intro grayVal hg
      rw [pushError_eq grayVal e n hg (by omega) (by omega), abs_le]
      split_ifs <;> omega

/-- Witness of C20 at palette size 2 and the value 127, where the error is 96. -/
theorem quantError_bounds_witness :
    (127 : ℕ) ≤ 255 ∧ |((127 : ℕ) : ℤ) - ((quantize 2 127).2 : ℤ)| ≤ 96 :=
  ⟨by decide, (quantError_bounds 2 127 (by decide)).2.2.2.1⟩

/-! ## Palette selection -/

/-- C16 (as stated, refuted): a palette argument that is not a number does not
select the default palette: `main` prints the diagnostic and exits with
status 1. -/
theorem palette_argument_text_exits :
    Atoi "abc" = none ∧
      startup ["dither", "in.gif", "out.gif", "abc"]
        = Startup.exit 1 "Invalid palette argument (expecting value 1-6)" := by
  constructor <;> decide

/-- C16 (amended): with the palette argument absent `main` goes on with
`oneBit`; with an argument that is the integer `n` it goes on with
`switchPalette n`, which is `oneBit`, `greys`, `gameboy`, `retro`, `aqua`,
`warm` for 1 to 6 and `oneBit` for every integer outside 1 to 6; an argument
that is not an integer selects no palette, `main` exits with status 1. -/
theorem palette_selection (prog inp out : String) (hin : HasSuffix inp ".gif" = true)
    (hout : HasSuffix out ".gif" = true) :
    startup [prog, inp, out] = Startup.proceed oneBit 2 ∧
      (∀ (s : String) (n : ℤ), Atoi s = some n →
        startup [prog, inp, out, s]
          = Startup.proceed (switchPalette n) ((switchPalette n).length : ℤ)) ∧
      switchPalette 1 = oneBit ∧ switchPalette 2 = greys ∧ switchPalette 3 = gameboy ∧
      switchPalette 4 = retro ∧ switchPalette 5 = aqua ∧ switchPalette 6 = warm ∧
      (∀ n : ℤ, n < 1 ∨ 6 < n → switchPalette n = oneBit) ∧
      (∀ s : String, Atoi s = none →
        startup [prog, inp, out, s]
          = Startup.exit 1 "Invalid palette argument (expecting value 1-6)") := by
  refine ⟨startup_three prog inp out hin hout, ?_, by decide, by decide, by decide, by decide,
    by decide, by decide, ?_, ?_⟩
  · intro s n hs
    rw [startup_four prog inp out s hin hout, hs]
  · intro n hn
    exact switchPalette_default n (by omega)
  · intro s hs
    rw [startup_four prog inp out s hin hout, hs]

/-- Witness of C16 (amended): the argument `5` selects `aqua`. -/
theorem palette_selection_witness :
    HasSuffix "in.gif" ".gif" = true ∧ HasSuffix "out.gif" ".gif" = true ∧ Atoi "5" = some 5 ∧
      startup ["dither", "in.gif", "out.gif", "5"]
        = Startup.proceed (switchPalette 5) ((switchPalette 5).length : ℤ) :=
  ⟨by decide, by decide, by decide,
    (palette_selection "dither" "in.gif" "out.gif" (by decide) (by decide)).2.1 "5" 5
      (by decide)⟩

/-- C17 (as stated, refuted): the palette argument `7`, an integer outside 1 to
6, is not an error: `main` goes on with the default palette `oneBit`. -/
theorem palette_argument_seven_proceeds :
    Atoi "7" = some 7 ∧
      startup ["dither", "in.gif", "out.gif", "7"] = Startup.proceed oneBit 2 := by
  constructor <;> decide

/-- C17 (amended): a palette argument that is present and is not an integer is
fatal: `main` prints the diagnostic and exits with status 1 before any frame
is processed. A palette argument that is an integer outside 1 to 6 is not an
error: `main` goes on with `oneBit`. -/
theorem invalid_palette_argument (prog inp out s : String)
    (hin : HasSuffix inp ".gif" = true) (hout : HasSuffix out ".gif" = true) :
    (Atoi s = none →
        startup [prog, inp, out, s]
          = Startup.exit 1 "Invalid palette argument (expecting value 1-6)") ∧
      (∀ n : ℤ, Atoi s = some n → n < 1 ∨ 6 < n →
        startup [prog, inp, out, s] = Startup.proceed oneBit 2) := by
  constructor
  · intro hs
    rw [startup_four prog inp out s hin hout, hs]
  · intro n hs hn
    rw [startup_four prog inp out s hin hout, hs]
    simp only
    rw [switchPalette_default n (by omega)]
    rfl

/-- Witness of C17 (amended): the argument `abc`. -/
theorem invalid_palette_argument_witness :
    HasSuffix "in.gif" ".gif" = true ∧ HasSuffix "out.gif" ".gif" = true ∧ Atoi "abc" = none ∧
      startup ["dither", "in.gif", "out.gif", "abc"]
        = Startup.exit 1 "Invalid palette argument (expecting value 1-6)" :=
  ⟨by decide, by decide, by decide,
    (invalid_palette_argument "dither" "in.gif" "out.gif" "abc" (by decide) (by decide)).1
      (by decide)⟩

/-- C19: each of the six defined palettes has 2 or 4 entries, pairwise
distinct, and looking up entry `k` of the palette finds index `k`; so
`Set(x, y, palette[k])` on an image with that palette stores `k` at the pixel
`(x, y)` of the image, wherever the corner of its bounds lies. -/
theorem stored_index_is_band_index :
    ∀ p ∈ definedPalettes,
      (p.length = 2 ∨ p.length = 4) ∧ p.Nodup ∧
        ∀ k < p.length, ∀ c, p[k]? = some c →
          paletteIndex p c = k ∧
            ∀ (img : Paletted) (x y : ℤ), img.Palette = p →
              img.Pix.length = img.Rect.Dx * img.Rect.Dy → img.Rect.contains x y →
              (img.Set x y c).Pix[((y - img.Rect.MinY) * (img.Rect.Dx : ℤ)
                + (x - img.Rect.MinX)).toNat]? = some k := by
  intro p hp
  obtain ⟨hlen, hnd, hidx⟩ := definedPalettes_index p hp
  refine ⟨hlen, hnd, ?_⟩
  intro k hk c hc
  refine ⟨hidx k hk c hc, ?_⟩
  intro img x y hpal hpix hin
  exact Set_stores_index img x y k c hpix hin (by rw [hpal]; exact hidx k hk c hc) (by omega)

/-- Witness of C19: entry 2 of `greys`. -/
theorem stored_index_is_band_index_witness :
    greys ∈ definedPalettes ∧ paletteIndex greys ⟨153, 153, 153, 255⟩ = 2 :=
  ⟨by decide,
    ((stored_index_is_band_index greys (by decide)).2.2 2 (by decide) ⟨153, 153, 153, 255⟩
      (by decide)).1⟩

/-! ## The all-black scenario -/

/-- C12 (as stated, refuted): on the 2x2 all-black frame the first pixel has
grayscale value 0 and reconstruction value 31, so its quantization error is
-31 and not 0; and the run of `dither` itself does not complete, it panics
while building the grayscale grid of two rows. -/
theorem allBlack_error_is_not_zero :
    findGray (blackSquareFrame.At 0 0) = 0 ∧
      ((findGray (blackSquareFrame.At 0 0) : ℤ)
        - ((quantize 2 (findGray (blackSquareFrame.At 0 0))).2 : ℤ)) = -31 ∧
      dither 0 blackSquareFrame oneBit 2 [none] = none := by
  have h : findGray (blackSquareFrame.At 0 0) = 0 := by
    simp [blackSquareFrame, Frame.At, findGray_black]
  refine ⟨h, ?_, by decide⟩
  rw [h]
  decide

/-- C12 (amended): each of the four pixels of the 2x2 all-black frame has
grayscale value 0; on the 2x2 grid of zeros, with `oneBit` and palette size 2,
every step of the scan and the whole scan complete, leave the grid at zero and
all four output pixels at palette index 0; the quantization error at each pixel
is `0 - 31 = -31`. -/
theorem allBlack_scan_by_design :
    findGray (blackSquareFrame.At 0 0) = 0 ∧ findGray (blackSquareFrame.At 1 0) = 0 ∧
      findGray (blackSquareFrame.At 0 1) = 0 ∧ findGray (blackSquareFrame.At 1 1) = 0 ∧
      pixelStep 2 2 oneBit 2 ⟨[[0, 0], [0, 0]], NewPaletted ⟨0, 0, 2, 2⟩ oneBit⟩ 0 0
        = some ⟨[[0, 0], [0, 0]], NewPaletted ⟨0, 0, 2, 2⟩ oneBit⟩ ∧
      pixelStep 2 2 oneBit 2 ⟨[[0, 0], [0, 0]], NewPaletted ⟨0, 0, 2, 2⟩ oneBit⟩ 0 1
        = some ⟨[[0, 0], [0, 0]], NewPaletted ⟨0, 0, 2, 2⟩ oneBit⟩ ∧
      pixelStep 2 2 oneBit 2 ⟨[[0, 0], [0, 0]], NewPaletted ⟨0, 0, 2, 2⟩ oneBit⟩ 1 0
        = some ⟨[[0, 0], [0, 0]], NewPaletted ⟨0, 0, 2, 2⟩ oneBit⟩ ∧
      pixelStep 2 2 oneBit 2 ⟨[[0, 0], [0, 0]], NewPaletted ⟨0, 0, 2, 2⟩ oneBit⟩ 1 1
        = some ⟨[[0, 0], [0, 0]], NewPaletted ⟨0, 0, 2, 2⟩ oneBit⟩ ∧
      scan 2 2 oneBit 2 ⟨[[0, 0], [0, 0]], NewPaletted ⟨0, 0, 2, 2⟩ oneBit⟩
        = some ⟨[[0, 0], [0, 0]], NewPaletted ⟨0, 0, 2, 2⟩ oneBit⟩ ∧
      (NewPaletted ⟨0, 0, 2, 2⟩ oneBit).Pix = [0, 0, 0, 0] ∧
      quantize 2 0 = (0, 31) ∧
      ((0 : ℕ) : ℤ) - ((quantize 2 0).2 : ℤ) = -31 := by
  refine ⟨?_, ?_, ?_, ?_, pixelStep_zero_grid 0 0 (by decide) (by decide),
    pixelStep_zero_grid 0 1 (by decide) (by decide),
    pixelStep_zero_grid 1 0 (by decide) (by decide),
    pixelStep_zero_grid 1 1 (by decide) (by decide), scan_zero_grid, by decide, by decide,
    by decide⟩ <;>
  simp [blackSquareFrame, Frame.At, findGray_black]

/-! ## Order independence -/

/-- C14: the target cells of one diffusion step are pairwise different, each
update changes its own cell from that cell's value and the error alone, and so
the updates, applied in any order, give the result of the diffusion step, on
every grid (a panic included: it does not depend on the order either). -/
theorem diffusion_order_independent (w h : ℤ) (g : Grid) (x y e : ℤ)
    (ts : List (ℤ × ℤ × ℤ)) (hperm : ts.Perm (diffuseTargets w h x y)) :
    applyUpdates e ts g = diffuse w h g x y e ∧
      (diffuseTargets w h x y).Pairwise (fun a b => ¬ (a.1 = b.1 ∧ a.2.1 = b.2.1)) ∧
      ∀ (t : ℤ × ℤ × ℤ) (g0 g1 : Grid), update g0 t.1 t.2.1 e t.2.2 = some g1 →
        ∀ y1 x1 : ℤ, getCell g1 y1 x1 =
          if y1 = t.1 ∧ x1 = t.2.1 then (getCell g0 t.1 t.2.1).map fun old => pushError old e t.2.2
          else getCell g0 y1 x1 := by
  have hpw := diffuseTargets_pairwise w h x y
  refine ⟨?_, hpw, fun t g0 g1 hu y1 x1 => getCell_update hu y1 x1⟩
  rw [diffuse_eq_applyUpdates]
  exact (applyUpdates_perm e hperm.symm hpw g).symm

/-- Witness of C14: the three updates of the top left pixel of a 3-by-2 grid,
in reverse order. -/
theorem diffusion_order_independent_witness :
    applyUpdates 16 [(1, 1, 1), (1, 0, 5), (0, 1, 7)] [[10, 20, 30], [40, 50, 60]]
      = diffuse 3 2 [[10, 20, 30], [40, 50, 60]] 0 0 16 :=
  (diffusion_order_independent 3 2 [[10, 20, 30], [40, 50, 60]] 0 0 16
    [(1, 1, 1), (1, 0, 5), (0, 1, 7)] (by decide)).1

/-! ## The exact success condition -/

/-- C18: a run of `dither` with slot index `i ≥ 0`, with `imgArr` longer than
`i` and a palette that has every index the quantizer can choose, completes
exactly when the frame has height 0, or width 0 and `i` below the height, or
height 1 and `i = 0`; in every other case the grid construction panics, on a
row that is out of range or not allocated. -/
theorem dither_completes_iff (i : ℤ) (hi : 0 ≤ i) (frame : Frame) (palette : List Color)
    (paletteSize : ℤ) (imgArr : List (Option Paletted)) (himg : i < imgArr.length)
    (h2 : 2 ≤ palette.length) (h4 : paletteSize = 4 → 4 ≤ palette.length) :
    ((dither i frame palette paletteSize imgArr).isSome = true ↔
        frame.Rect.Dy = 0 ∨ (frame.Rect.Dx = 0 ∧ i < frame.Rect.Dy) ∨ (frame.Rect.Dy = 1 ∧ i = 0)) ∧
      ((buildGray i frame).isSome = true ↔
        frame.Rect.Dy = 0 ∨ (frame.Rect.Dx = 0 ∧ i < frame.Rect.Dy) ∨ (frame.Rect.Dy = 1 ∧ i = 0)) ∧
      (¬ (frame.Rect.Dy = 0 ∨ (frame.Rect.Dx = 0 ∧ i < frame.Rect.Dy) ∨ (frame.Rect.Dy = 1 ∧ i = 0)) →
        buildGray i frame = none) := by
  obtain ⟨hyes, hno⟩ := buildGray_spec i hi frame
  by_cases hc : frame.Rect.Dy = 0 ∨ (frame.Rect.Dx = 0 ∧ i < frame.Rect.Dy) ∨ (frame.Rect.Dy = 1 ∧ i = 0)
  · obtain ⟨g, hg, hwf⟩ := hyes hc
    obtain ⟨s, hs, _⟩ := scan_wellFormed (quantize_index_lt palette paletteSize h2 h4)
      ⟨g, NewPaletted frame.Rect palette⟩ hwf
    obtain ⟨arr, harr⟩ := store_isSome imgArr i (some s.newImg) hi himg
    have hd : dither i frame palette paletteSize imgArr = some ⟨frame, palette, arr⟩ := by
      unfold dither
      simp only [hg, Option.some_bind, hs, harr]
    refine ⟨?_, ?_, fun h => absurd hc h⟩
    · rw [hd]
      simp [hc]
    · rw [hg]
      simp [hc]
  · have hg := hno hc
    have hd : dither i frame palette paletteSize imgArr = none := by
      unfold dither
      simp only [hg, Option.none_bind]
    refine ⟨?_, ?_, fun _ => hg⟩
    · rw [hd]
      simp [hc]
    · rw [hg]
      simp [hc]

/-- Witness of C18: slot index 0 and a 1x1 frame. -/
theorem dither_completes_iff_witness :
    (dither 0 blackPixelFrame oneBit 2 [none]).isSome = true ↔
      blackPixelFrame.Rect.Dy = 0 ∨ (blackPixelFrame.Rect.Dx = 0 ∧ (0 : ℤ) < blackPixelFrame.Rect.Dy)
        ∨ (blackPixelFrame.Rect.Dy = 1 ∧ (0 : ℤ) = 0) :=
  (dither_completes_iff 0 (by decide) blackPixelFrame oneBit 2 [none] (by decide) (by decide)
    (by decide)).1

/-! ## The single-pixel scenario and the grayscale conversion -/

/-- C13: on a 1x1 frame whose bounds do not start at the origin `dither` does
not output the quantizer's index of the pixel. The frame with bounds
`(1,0)-(2,1)` holds one white pixel, whose quantizer index with palette size 2
is 1; the loops read `frame.At(0, 0)`, which lies outside the bounds and is
entry 0 of the frame's palette, and `newImg.Set(0, 0, ...)` lies outside the
bounds too and writes nothing, so the output pixel stays at index 0. -/
theorem dither_offset_pixel_not_written :
    whiteOffsetFrame.WellFormed ∧
      whiteOffsetFrame.Rect.contains 1 0 ∧ ¬ whiteOffsetFrame.Rect.contains 0 0 ∧
      whiteOffsetFrame.At 1 0 = ⟨255, 255, 255, 255⟩ ∧
      (quantize 2 (findGray ⟨255, 255, 255, 255⟩)).1 = 1 ∧
      dither 0 whiteOffsetFrame oneBit 2 [none]
        = some ⟨whiteOffsetFrame, oneBit, [some ⟨⟨1, 0, 1, 1⟩, [0], oneBit⟩]⟩ ∧
      whiteOnBlackOffsetFrame.At 1 0 = ⟨255, 255, 255, 255⟩ ∧
      whiteOnBlackOffsetFrame.At 0 0 = ⟨0, 0, 0, 255⟩ ∧
      dither 0 whiteOnBlackOffsetFrame oneBit 2 [none]
        = some ⟨whiteOnBlackOffsetFrame, oneBit, [some ⟨⟨1, 0, 1, 1⟩, [0], oneBit⟩]⟩ := by
  have hw := findGray_white
  have hq : (quantize 2 (findGray ⟨255, 255, 255, 255⟩)).1 = 1 := by
    have h128 : ¬ findGray ⟨255, 255, 255, 255⟩ < 128 := by omega
    simp [quantize, h128]
  have hat : whiteOffsetFrame.At 0 0 = ⟨255, 255, 255, 255⟩ := by decide
  have hatb : whiteOnBlackOffsetFrame.At 0 0 = ⟨0, 0, 0, 255⟩ := by decide
  have hout : ¬ (⟨1, 0, 1, 1⟩ : Rectangle).contains 0 0 := by decide
  have hnew : NewPaletted ⟨1, 0, 1, 1⟩ oneBit = ⟨⟨1, 0, 1, 1⟩, [0], oneBit⟩ := by decide
  refine ⟨?_, by decide, by decide, by decide, hq, ?_, by decide, hatb, ?_⟩
  · unfold Frame.WellFormed whiteOffsetFrame
    decide
  · have hc : oneBit[(quantize 2 (findGray (whiteOffsetFrame.At 0 0))).1]?
        = some ⟨255, 255, 255, 255⟩ := by
      rw [hat, hq]
      decide
    rw [single_pixel_dither whiteOffsetFrame rfl rfl oneBit 2 [none] (by decide) _ hc]
    have hrect : whiteOffsetFrame.Rect = ⟨1, 0, 1, 1⟩ := rfl
    rw [hrect, Set_offset_pixel _ hout, hnew]
    rfl
  · have hc : oneBit[(quantize 2 (findGray (whiteOnBlackOffsetFrame.At 0 0))).1]?
        = some ⟨0, 0, 0, 255⟩ := by
      rw [hatb, findGray_black]
      decide
    rw [single_pixel_dither whiteOnBlackOffsetFrame rfl rfl oneBit 2 [none] (by decide) _ hc]
    have hrect : whiteOnBlackOffsetFrame.Rect = ⟨1, 0, 1, 1⟩ := rfl
    rw [hrect, Set_offset_pixel _ hout, hnew]
    rfl

/-- C15: for 8-bit channel values the grayscale value, both as the source
computes it in `float64` and as the truncation of `0.299*R + 0.587*G + 0.114*B`
in exact arithmetic, is the integer part of the luminance without wrap-around
and lies between 0 and 255; it does not decrease when one channel grows and
the other two stay; it does not depend on alpha. -/
theorem findGray_range_monotone (R G B A : ℕ) (hR : R ≤ 255) (hG : G ≤ 255) (hB : B ≤ 255) :
    (findGrayExact ⟨R, G, B, A⟩ = (299 * R + 587 * G + 114 * B) / 1000 ∧
        findGrayExact ⟨R, G, B, A⟩ ≤ 255) ∧
      ((findGray ⟨R, G, B, A⟩ : ℤ) = ⌊grayFloat R G B⌋ ∧ findGray ⟨R, G, B, A⟩ ≤ 255) ∧
      (∀ R1 : ℕ, R ≤ R1 → R1 ≤ 255 →
        findGrayExact ⟨R, G, B, A⟩ ≤ findGrayExact ⟨R1, G, B, A⟩ ∧
          findGray ⟨R, G, B, A⟩ ≤ findGray ⟨R1, G, B, A⟩) ∧
      (∀ G1 : ℕ, G ≤ G1 → G1 ≤ 255 →
        findGrayExact ⟨R, G, B, A⟩ ≤ findGrayExact ⟨R, G1, B, A⟩ ∧
          findGray ⟨R, G, B, A⟩ ≤ findGray ⟨R, G1, B, A⟩) ∧
      (∀ B1 : ℕ, B ≤ B1 → B1 ≤ 255 →
        findGrayExact ⟨R, G, B, A⟩ ≤ findGrayExact ⟨R, G, B1, A⟩ ∧
          findGray ⟨R, G, B, A⟩ ≤ findGray ⟨R, G, B1, A⟩) ∧
      (∀ A1 : ℕ, findGrayExact ⟨R, G, B, A1⟩ = findGrayExact ⟨R, G, B, A⟩ ∧
        findGray ⟨R, G, B, A1⟩ = findGray ⟨R, G, B, A⟩) := by
  have hex := findGrayExact_eq R G B A hR hG hB
  obtain ⟨hr0, hr1⟩ := grayFloat_range R G B hR hG hB
  have hfl := toUint8_eq_floor hr0 hr1
  rw [← findGray_eq R G B A hR hG hB] at hfl
  have key : ∀ R1 G1 B1 : ℕ, R ≤ R1 → G ≤ G1 → B ≤ B1 → R1 ≤ 255 → G1 ≤ 255 → B1 ≤ 255 →
      findGrayExact ⟨R, G, B, A⟩ ≤ findGrayExact ⟨R1, G1, B1, A⟩ ∧
        findGray ⟨R, G, B, A⟩ ≤ findGray ⟨R1, G1, B1, A⟩ := by
    intro R1 G1 B1 h1 h2 h3 h4 h5 h6
    constructor
    · rw [hex, findGrayExact_eq R1 G1 B1 A h4 h5 h6]
      apply Nat.div_le_div_right
      omega
    · rw [findGray_eq R G B A hR hG hB, findGray_eq R1 G1 B1 A h4 h5 h6]
      exact toUint8_mono hr0 (grayFloat_mono h1 h2 h3) (grayFloat_range R1 G1 B1 h4 h5 h6).2
  refine ⟨⟨hex, ?_⟩, hfl, ?_, ?_, ?_, ?_⟩
  · rw [hex]
    omega
  · intro R1 h1 h2
    exact key R1 G B h1 (le_refl G) (le_refl B) h2 hG hB
  · intro G1 h1 h2
    exact key R G1 B (le_refl R) h1 (le_refl B) hR h2 hB
  · intro B1 h1 h2
    exact key R G B1 (le_refl R) (le_refl G) h1 hR hG h2
  · intro A1
    constructor
    · rw [hex, findGrayExact_eq R G B A1 hR hG hB]
    · rw [findGray_eq R G B A hR hG hB, findGray_eq R G B A1 hR hG hB]

/-- Witness of C15: the colour `(0, 160, 220)`, whose exact luminance is 119. -/
theorem findGray_range_monotone_witness :
    findGrayExact ⟨0, 160, 220, 255⟩ = (299 * 0 + 587 * 160 + 114 * 220) / 1000 ∧
      findGrayExact ⟨0, 160, 220, 255⟩ ≤ 255 ∧ findGray ⟨0, 160, 220, 255⟩ ≤ 255 :=
  ⟨(findGray_range_monotone 0 160 220 255 (by decide) (by decide) (by decide)).1.1,
    (findGray_range_monotone 0 160 220 255 (by decide) (by decide) (by decide)).1.2,
    (findGray_range_monotone 0 160 220 255 (by decide) (by decide) (by decide)).2.1.2⟩

end GolangDither
